import Mathlib

/-!
Shallow embedding of the gonnotation type-extraction engine.

Strings are modelled as `List Char` (Go iterates runes and slices at rune
boundaries; all inputs considered here are ASCII, where Go byte indices and
rune indices coincide).  Go maps with string keys are modelled as association
lists with insert-or-overwrite semantics; Go pointers into the type registry
are modelled as indices into an arena list.  Each definition is translated
from the corresponding Go function, whose name it keeps (with an `M` suffix
where a Lean keyword or a collision forces a rename).
-/

namespace Gonnotation

abbrev Str := List Char

/-- The double-quote character. -/
def dquote : Char := Char.ofNat 34

/-- The single-quote character. -/
def squote : Char := Char.ofNat 39

/-- ASCII whitespace recognized by Go `strings.TrimSpace` (ASCII fragment). -/
def isSpaceChar (c : Char) : Bool :=
  c == ' ' || c == Char.ofNat 9 || c == Char.ofNat 10 || c == Char.ofNat 13

/-- Go `strings.TrimSpace`. -/
def TrimSpace (s : Str) : Str :=
  ((s.dropWhile isSpaceChar).reverse.dropWhile isSpaceChar).reverse

/-- Go `strings.HasPrefix`. -/
def strHasPre (p s : Str) : Bool := p.isPrefixOf s

/-- Go `strings.HasSuffix`. -/
def strHasSuf (p s : Str) : Bool := p.isSuffixOf s

/-- Go `strings.TrimPrefix`. -/
def TrimPre (p s : Str) : Str := if p.isPrefixOf s then s.drop p.length else s

/-- Go `strings.TrimSuffix`. -/
def TrimSuf (p s : Str) : Str :=
  if p.isSuffixOf s then s.take (s.length - p.length) else s

/-- Go `strings.Trim` with a cutset: removes leading and trailing characters
that occur in the cutset. -/
def trimCutset (cut : List Char) (s : Str) : Str :=
  ((s.dropWhile (fun c => cut.contains c)).reverse.dropWhile
    (fun c => cut.contains c)).reverse

/-- Index of the first occurrence of a character, Go `strings.Index` for a
one-character pattern (`none` plays the role of Go's `-1`). -/
def firstIdxOf (c : Char) : Str → Option Nat
  | [] => none
  | x :: xs =>
    if x == c then some 0
    else match firstIdxOf c xs with
      | some i => some (i + 1)
      | none => none

/-- Index of the last occurrence of a character, Go `strings.LastIndex` for a
one-character pattern. -/
def lastIdxOf (c : Char) (s : Str) : Option Nat :=
  match firstIdxOf c s.reverse with
  | some i => some (s.length - 1 - i)
  | none => none

/-- Association-list model of a Go map with string keys: assignment
overwrites an existing binding or appends a new one. -/
abbrev ParamsM := List (Str × Str)

def mapInsert {α : Type} (m : List (Str × α)) (k : Str) (v : α) : List (Str × α) :=
  if m.any (fun p => p.1 == k) then
    m.map (fun p => if p.1 == k then (k, v) else p)
  else m ++ [(k, v)]

def alLookup {α : Type} (m : List (Str × α)) (k : Str) : Option α :=
  match m.find? (fun p => p.1 == k) with
  | some p => some p.2
  | none => none

/-- Reading a Go map: a missing key yields the zero value `""`. -/
def mapGetD (m : ParamsM) (k : Str) : Str :=
  match m.find? (fun p => p.1 == k) with
  | some p => p.2
  | none => []

/-! ## Annotation parser (annotations package) -/

/-- `Annotation`: name, parameter map, raw source text. -/
structure AnnotationM where
  name : Str
  params : ParamsM
  rawText : Str
deriving DecidableEq, Repr

/-- `isInQuotes` checks if a character at a given index is inside quotes:
replays the quote state over the characters before the index. -/
def isInQuotes (s : Str) (idx : Nat) : Bool :=
  (s.take idx).foldl
    (fun st ch =>
      let (inQuotes, quoteChar) := st
      if ch == dquote || ch == squote then
        if !inQuotes then (true, ch)
        else if ch == quoteChar then (false, quoteChar)
        else st
      else st)
    (false, Char.ofNat 0) |>.1

/-- `isBooleanFlag` checks if a string looks like a boolean flag (simple
identifier of letters, digits, `_`, `-`). -/
def isBooleanFlag (s : Str) : Bool :=
  let s := TrimSpace s
  if s == [] then false
  else s.all (fun ch =>
    (97 ≤ ch.toNat && ch.toNat ≤ 122) || (65 ≤ ch.toNat && ch.toNat ≤ 90) ||
    (48 ≤ ch.toNat && ch.toNat ≤ 57) || ch == '_' || ch == '-')

/-- Scanner state for the comma/space splitting loops. -/
structure ScanSt where
  parts : List Str
  current : Str
  inQuotes : Bool
  quoteChar : Char
  bracketDepth : Int
deriving Repr

/-- One step of the splitting loop of `parseParamsParentheses`: commas split
only outside quotes and at bracket depth 0. -/
def ppSplitStep (st : ScanSt) (ch : Char) : ScanSt :=
  if ch == dquote || ch == squote then
    if !st.inQuotes then
      { st with inQuotes := true, quoteChar := ch, current := st.current ++ [ch] }
    else if ch == st.quoteChar then
      { st with inQuotes := false, current := st.current ++ [ch] }
    else { st with current := st.current ++ [ch] }
  else if ch == '[' && !st.inQuotes then
    { st with bracketDepth := st.bracketDepth + 1, current := st.current ++ [ch] }
  else if ch == ']' && !st.inQuotes then
    { st with bracketDepth := st.bracketDepth - 1, current := st.current ++ [ch] }
  else if ch == ',' && !st.inQuotes && st.bracketDepth == 0 then
    { st with parts := st.parts ++ [st.current], current := [] }
  else { st with current := st.current ++ [ch] }

/-- First separator (`:` or `=`) index outside quotes in a part. -/
def findSepIdx (part : Str) : Option Nat :=
  (part.enum.find? (fun p =>
    (p.2 == ':' || p.2 == '=') && !isInQuotes part p.1)).map (fun p => p.1)

/-- `parseParamsParentheses` parses `key:value` pairs from the parenthesized
format; bare unquoted identifiers become boolean flags stored as `"true"`,
quoted bare tokens become positional values under the empty key, further
positional values are comma-joined onto the empty key. -/
def parseParamsParentheses (s : Str) : ParamsM :=
  let st := s.foldl ppSplitStep ⟨[], [], false, Char.ofNat 0, 0⟩
  let parts := if st.current.length > 0 then st.parts ++ [st.current] else st.parts
  (parts.foldl
    (fun acc rawPart =>
      let (params, positionalIdx) := acc
      let part := TrimSpace rawPart
      match findSepIdx part with
      | none =>
        let wasQuoted :=
          (strHasPre [dquote] part && strHasSuf [dquote] part) ||
          (strHasPre [squote] part && strHasSuf [squote] part)
        let value := trimCutset [dquote, squote] part
        if !wasQuoted && isBooleanFlag value then
          (mapInsert params value "true".toList, positionalIdx)
        else if positionalIdx == 0 then
          (mapInsert params [] value, positionalIdx + 1)
        else
          (mapInsert params [] (mapGetD params [] ++ [','] ++ value),
           positionalIdx + 1)
      | some sepIdx =>
        let key := TrimSpace (part.take sepIdx)
        let value := trimCutset [dquote, squote] (TrimSpace (part.drop (sepIdx + 1)))
        (mapInsert params key value, positionalIdx))
    (([] : ParamsM), (0 : Nat))).1

/-- One step of `splitAnnotationParts`: spaces split only outside quotes. -/
def saSplitStep (st : ScanSt) (ch : Char) : ScanSt :=
  if ch == dquote || ch == squote then
    if !st.inQuotes then
      { st with inQuotes := true, quoteChar := ch, current := st.current ++ [ch] }
    else if ch == st.quoteChar then
      { st with inQuotes := false, current := st.current ++ [ch] }
    else { st with current := st.current ++ [ch] }
  else if ch == ' ' && !st.inQuotes then
    if st.current.length > 0 then
      { st with parts := st.parts ++ [st.current], current := [] }
    else st
  else { st with current := st.current ++ [ch] }

/-- `splitAnnotationParts` splits an annotation line at spaces, respecting
quotes. -/
def splitAnnotationParts (line : Str) : List Str :=
  let st := line.foldl saSplitStep ⟨[], [], false, Char.ofNat 0, 0⟩
  if st.current.length > 0 then st.parts ++ [st.current] else st.parts

/-- `parseParamsSpaceSeparated` parses space-separated `key="value"` pairs. -/
def parseParamsSpaceSeparated (parts : List Str) : ParamsM :=
  parts.foldl
    (fun params rawPart =>
      let part := TrimSpace rawPart
      if part == [] then params
      else match findSepIdx part with
        | none => mapInsert params part "true".toList
        | some sepIdx =>
          let key := TrimSpace (part.take sepIdx)
          let value := trimCutset [dquote, squote] (TrimSpace (part.drop (sepIdx + 1)))
          mapInsert params key value)
    []

/-- `parseAnnotation`: parses a single annotation line `@name`,
`@name(key:value, ...)` or `@name key="value" ...`. -/
def parseAnnotationM (line0 : Str) : AnnotationM :=
  let rawText := line0
  let line := TrimPre ['@'] line0
  match firstIdxOf '(' line with
  | some parenIdx =>
    let name := TrimSpace (line.take parenIdx)
    let paramsStr := line.drop (parenIdx + 1)
    let paramsStr :=
      match lastIdxOf ')' paramsStr with
      | some endIdx => paramsStr.take endIdx
      | none => paramsStr
    { name := name, params := parseParamsParentheses paramsStr, rawText := rawText }
  | none =>
    match splitAnnotationParts line with
    | [] => { name := [], params := [], rawText := rawText }
    | p0 :: rest =>
      { name := TrimSpace p0,
        params := if rest.length > 0 then parseParamsSpaceSeparated rest else [],
        rawText := rawText }

/-- Comment-marker cleanup performed by `ParseAnnotations` on each comment
text before splitting it into lines. -/
def cleanCommentText (text : Str) : Str :=
  TrimSpace (TrimSuf "*/".toList (TrimPre "/*".toList (TrimPre "//".toList
    (TrimSpace text))))

/-- Per-line handling inside `ParseAnnotations`: trim, strip a leading `*`,
and keep only `@`-prefixed lines whose parsed annotation has a nonempty
name.  Malformed lines contribute nothing instead of failing. -/
def annotationsOfComment (text : Str) : List AnnotationM :=
  ((cleanCommentText text).splitOn (Char.ofNat 10)).foldr
    (fun rawLine acc =>
      let line := TrimSpace (TrimPre ['*'] (TrimSpace rawLine))
      if strHasPre ['@'] line then
        let ann := parseAnnotationM line
        if ann.name ≠ [] then ann :: acc else acc
      else acc)
    []

/-- `ParseAnnotations` over a list of comment texts (the flattening of the
comment groups). -/
def ParseAnnotationsM (comments : List Str) : List AnnotationM :=
  (comments.map annotationsOfComment).flatten

/-! ## Visibility (types package) -/

/-- `utils.IsBasicType`. -/
def IsBasicType (typeName : Str) : Bool :=
  (["any", "bool", "byte", "complex128", "complex64", "error", "float32",
    "float64", "int", "int16", "int32", "int64", "int8", "interface{}",
    "rune", "string", "uint", "uint16", "uint32", "uint64", "uint8",
    "uintptr"].map String.toList).contains typeName

/-- The `Visibility` enumeration of the data model. -/
inductive Visibility where
  | vpublic
  | vprotected
  | vprivate
deriving DecidableEq, Repr

/-- `determineVisibility`: visibility of a named element from Go naming
conventions (empty name private, basic types public, initial capital
public, otherwise private). -/
def determineVisibility (name : Str) : Visibility :=
  if name == [] then .vprivate
  else if IsBasicType name then .vpublic
  else
    match name with
    | c :: _ => if 65 ≤ c.toNat && c.toNat ≤ 90 then .vpublic else .vprivate
    | [] => .vprivate

/-! ## Usage tracking core (types package) -/

/-- `ReferenceKind`: role of a reference edge. -/
inductive ReferenceKind where
  | fieldK
  | embeddedK
  | parameterK
  | returnK
deriving DecidableEq, Repr

/-- `ReferenceInfo`: one usage edge. -/
structure ReferenceInfo where
  refType : Str
  name : Str
  kind : ReferenceKind
deriving DecidableEq, Repr

/-- `UsageInfo`: usage edges plus the derived embedded-only flag. -/
structure UsageInfoM where
  isOnlyEmbedded : Bool
  embeddedIn : List ReferenceInfo
  referencedIn : List ReferenceInfo
deriving DecidableEq, Repr

/-- `UpdateUsageFlags`: the embedded-only flag is true exactly when there is
at least one embedded edge and no direct reference edge. -/
def UpdateUsageFlags (u : UsageInfoM) : UsageInfoM :=
  { u with isOnlyEmbedded := u.embeddedIn.length > 0 && u.referencedIn.length == 0 }

/-! ## Type registry (types package)

Go AST expressions are modelled by the fragment `GoExpr` covering the
expression forms the verified flows exercise (named references, pointers,
qualified references, struct literals and generic instantiations).  Field
lists and type-argument lists are their own mutual inductives so that all
definitions stay structurally recursive (and hence kernel-evaluable). -/

mutual
inductive GoExpr where
  | ident (name : Str)
  | star (x : GoExpr)
  | sel (pkgAlias : Str) (name : Str)
  | structLit (fields : FieldList)
  | indexE (base : GoExpr) (arg : GoExpr)
  | indexList (base : GoExpr) (args : ExprList)
deriving Repr

/-- The field list of an `ast.StructType`: each `ast.Field` carries a list of
names (empty for an embedded field) and a type expression. -/
inductive FieldList where
  | nil
  | cons (names : List Str) (ty : GoExpr) (rest : FieldList)
deriving Repr

inductive ExprList where
  | nil
  | cons (e : GoExpr) (rest : ExprList)
deriving Repr
end

/-- `ast.TypeSpec`: declaration name, declared type, whether `Assign` is
valid (a `type X = T` alias declaration), and declared type-parameter names
(constraints are not part of the modelled fragment). -/
structure TypeSpecM where
  name : Str
  ty : GoExpr
  isAliasDecl : Bool
  typeParams : List Str
deriving Repr

/-- `TypeKind`. -/
inductive TypeKind where
  | structK
  | interfaceK
  | functionK
  | enumK
  | basicK
  | aliasK
  | arrayK
  | sliceK
  | mapK
deriving DecidableEq, Repr

/-- A `FieldInfo` (its embedded `TypedElement` flattened): the resolved type
reference is an arena index standing for the Go pointer. -/
structure FieldInfoM where
  name : Str
  isPointer : Bool
  typeRef : Str
  typeInfo : Option Nat
  isEmbedded : Bool
  visibility : Visibility
deriving DecidableEq, Repr

/-- A `TypedElement`. -/
structure TypedElementM where
  name : Str
  isPointer : Bool
  typeRef : Str
  typeInfo : Option Nat
  visibility : Visibility
deriving DecidableEq, Repr

/-- A method entry of a `TypeInfo` (`FunctionInfo`); methods are only ever
copied verbatim in the verified flows, so only the name is carried. -/
structure MethodM where
  name : Str
deriving DecidableEq, Repr

/-- `TypeInfo`, the registry node.  Pointers to other nodes
(`AliasTarget`, `BaseGenericType`, `TypeArguments`, field `TypeInfo`) are
arena indices.  `structTypeS` is the internal deferred-parsing slot
`structType`: `some none` models the `&ast.StructType{}` placeholder whose
`Fields` is nil, `some (some fs)` a real struct literal.  Comment text and
attached annotations are not carried (the verified flows pass no comment
groups). -/
structure TypeInfoM where
  kind : TypeKind
  visibility : Visibility
  cannonicalName : Str
  name : Str
  typeSpec : Option TypeSpecM
  isGeneric : Bool
  isAlias : Bool
  aliasTarget : Option Nat
  aliasTargetRef : Str
  isGenericInstantiation : Bool
  baseGenericType : Option Nat
  baseGenericTypeRef : Str
  typeArguments : List (Option Nat)
  typeArgumentRefs : List Str
  typeParams : List Str
  fields : List FieldInfoM
  methods : List MethodM
  usageInfo : Option UsageInfoM
  depth : Int
  structTypeS : Option (Option FieldList)
deriving Repr

/-- `ProcessContext.Types` plus the node arena: `arena` holds every
allocated `TypeInfo` (a Go pointer is an index into it) and `cache` is the
canonical-name map. -/
structure Ctx where
  arena : List TypeInfoM
  cache : List (Str × Nat)
deriving Repr

/-- In-place update of one arena slot (mutation through a Go pointer). -/
def updateArena (c : Ctx) (i : Nat) (f : TypeInfoM → TypeInfoM) : Ctx :=
  { c with arena := listModify c.arena i f }
where
  listModify : List TypeInfoM → Nat → (TypeInfoM → TypeInfoM) → List TypeInfoM
    | [], _, _ => []
    | x :: xs, 0, g => g x :: xs
    | x :: xs, n + 1, g => x :: listModify xs n g

/-- `utils.GetCanonicalNameFromExpr` (with `pkg` always present;
`ResolvePackagePathFromImports` is modelled as returning the package
qualifier itself, import tables being environment data outside the model). -/
def GetCanonicalNameFromExpr (pkgPath : Str) : GoExpr → Str → Str
  | e, typeName =>
    if typeName ≠ [] then
      if ¬IsBasicType typeName then pkgPath ++ '.' :: typeName else typeName
    else
      match e with
      | .ident n => if ¬IsBasicType n then pkgPath ++ '.' :: n else n
      | .sel p n => p ++ '.' :: n
      | .star x => GetCanonicalNameFromExpr pkgPath x typeName
      | .indexE b a =>
        GetCanonicalNameFromExpr pkgPath b [] ++ '[' ::
          (GetCanonicalNameFromExpr pkgPath a [] ++ [']'])
      | .indexList b args =>
        GetCanonicalNameFromExpr pkgPath b [] ++ '[' ::
          (canonArgs pkgPath args ++ [']'])
      | .structLit _ => pkgPath ++ ".anonymous".toList
where
  canonArgs (pkgPath : Str) : ExprList → Str
    | .nil => []
    | .cons a .nil => GetCanonicalNameFromExpr pkgPath a []
    | .cons a rest =>
      GetCanonicalNameFromExpr pkgPath a [] ++ ',' :: canonArgs pkgPath rest

/-- The freshly initialized `TypeInfo` record of `NewTypeInfoFromExpr`. -/
def baseTypeInfo (pkgPath : Str) (typeName : Str) (typeSpec : Option TypeSpecM) :
    TypeInfoM :=
  { kind := .structK
    visibility := determineVisibility typeName
    cannonicalName :=
      if typeName ≠ [] ∧ ¬IsBasicType typeName then pkgPath ++ '.' :: typeName
      else typeName
    name := typeName
    typeSpec := typeSpec
    isGeneric := false
    isAlias := false
    aliasTarget := none
    aliasTargetRef := []
    isGenericInstantiation := false
    baseGenericType := none
    baseGenericTypeRef := []
    typeArguments := []
    typeArgumentRefs := []
    typeParams := []
    fields := []
    methods := []
    usageInfo := some { isOnlyEmbedded := false, embeddedIn := [], referencedIn := [] }
    depth := -1
    structTypeS := none }

/-- `NewTypeInfoFromExpr`: builds a skeleton node without recursing into
fields or methods (those are deferred); returns `none` for a bare basic
type.  A pointer expression is unwrapped with the type name cleared. -/
def NewTypeInfoFromExpr (pkgPath : Str) : GoExpr → Str → Option TypeSpecM →
    Option TypeInfoM
  | .star x, _, typeSpec => NewTypeInfoFromExpr pkgPath x [] typeSpec
  | e, typeName, typeSpec =>
    let ti := baseTypeInfo pkgPath typeName typeSpec
    if (match typeSpec with
        | some spec => spec.isAliasDecl
        | none => false) then
      some { ti with kind := .aliasK, isAlias := true }
    else
      let ti :=
        match typeSpec with
        | some spec =>
          if spec.typeParams.length > 0 then
            { ti with isGeneric := true, typeParams := spec.typeParams }
          else ti
        | none => ti
      match e with
      | .structLit fs => some { ti with kind := .structK, structTypeS := some (some fs) }
      | .ident n =>
        if typeName ≠ [] then
          some { ti with
                  kind := .structK
                  name := typeName
                  cannonicalName := pkgPath ++ '.' :: typeName }
        else if IsBasicType n then none
        else
          some { ti with
                  kind := .structK
                  name := n
                  cannonicalName := pkgPath ++ '.' :: n }
      | .sel p n =>
        some { ti with
                kind := .structK
                name := if typeName == [] then n else typeName
                cannonicalName := p ++ '.' :: n }
      | .indexE _ _ =>
        some { ti with
                kind := .structK
                isGenericInstantiation := true
                structTypeS := some none }
      | .indexList _ _ =>
        some { ti with
                kind := .structK
                isGenericInstantiation := true
                structTypeS := some none }
      | .star _ => none

/-- `trackEmbeddedUsage`: appends an embedded edge to the referenced node's
usage list and recomputes the embedded-only flag.  No-ops mirror the nil
guards of the source. -/
def trackEmbeddedUsageF (c : Ctx) (embeddedTypeIdx : Option Nat) (parentIdx : Nat) :
    Ctx :=
  match embeddedTypeIdx with
  | none => c
  | some ei =>
    match c.arena.get? ei, c.arena.get? parentIdx with
    | some enode, some pnode =>
      match enode.usageInfo with
      | none => c
      | some u =>
        let refInfo : ReferenceInfo :=
          { refType := pnode.cannonicalName, name := [], kind := .embeddedK }
        let u' := UpdateUsageFlags { u with embeddedIn := u.embeddedIn ++ [refInfo] }
        updateArena c ei (fun ti => { ti with usageInfo := some u' })
    | _, _ => c

/-- `trackFieldUsage`: appends a field reference edge to the referenced
node's usage list and recomputes the embedded-only flag. -/
def trackFieldUsageF (c : Ctx) (fieldTypeIdx : Option Nat) (parentIdx : Nat)
    (fieldName : Str) : Ctx :=
  match fieldTypeIdx with
  | none => c
  | some fi =>
    match c.arena.get? fi, c.arena.get? parentIdx with
    | some fnode, some pnode =>
      match fnode.usageInfo with
      | none => c
      | some u =>
        let refInfo : ReferenceInfo :=
          { refType := pnode.cannonicalName, name := fieldName, kind := .fieldK }
        let u' := UpdateUsageFlags { u with referencedIn := u.referencedIn ++ [refInfo] }
        updateArena c fi (fun ti => { ti with usageInfo := some u' })
    | _, _ => c

/-- `trackParameterUsage` (the referencer is identified by name only). -/
def trackParameterUsageF (c : Ctx) (paramTypeIdx : Option Nat)
    (functionType : Str) (paramName : Str) : Ctx :=
  match paramTypeIdx with
  | none => c
  | some pi =>
    match c.arena.get? pi with
    | some pnode =>
      match pnode.usageInfo with
      | none => c
      | some u =>
        let refInfo : ReferenceInfo :=
          { refType := functionType, name := paramName, kind := .parameterK }
        let u' := UpdateUsageFlags { u with referencedIn := u.referencedIn ++ [refInfo] }
        updateArena c pi (fun ti => { ti with usageInfo := some u' })
    | none => c

/-- `trackReturnUsage`. -/
def trackReturnUsageF (c : Ctx) (returnTypeIdx : Option Nat)
    (functionType : Str) (returnName : Str) : Ctx :=
  match returnTypeIdx with
  | none => c
  | some ri =>
    match c.arena.get? ri with
    | some rnode =>
      match rnode.usageInfo with
      | none => c
      | some u =>
        let refInfo : ReferenceInfo :=
          { refType := functionType, name := returnName, kind := .returnK }
        let u' := UpdateUsageFlags { u with referencedIn := u.referencedIn ++ [refInfo] }
        updateArena c ri (fun ti => { ti with usageInfo := some u' })
    | none => c

/-- Final visibility/typeRef fixup of `parseTypedElement` after the type
info has been resolved. -/
def finishTypedElement (c : Ctx) (te : TypedElementM) (tiIdx : Option Nat)
    (typeExpr : GoExpr) (name : Str) : TypedElementM :=
  match tiIdx with
  | some i =>
    match c.arena.get? i with
    | some node =>
      { te with
          typeInfo := some i
          visibility := node.visibility
          typeRef := node.cannonicalName }
    | none => te
  | none =>
    match typeExpr with
    | .ident n =>
      if IsBasicType n then { te with typeRef := n, visibility := .vpublic }
      else if name ≠ [] then { te with visibility := determineVisibility name }
      else { te with visibility := .vpublic }
    | _ =>
      if name ≠ [] then { te with visibility := determineVisibility name }
      else { te with visibility := .vpublic }

/-! The registration engine.  The Go code terminates because a recursive
resolve for a cached canonical name returns the cached node before any
recursion; the embedding makes the recursion structural on an explicit fuel
argument (`none` = fuel exhausted), and fuel-sufficiency is proved below. -/

mutual
/-- `GetOrCreateTypeInfo`: canonical-name cache lookup; on a miss the
skeleton node is built, inserted into the cache immediately, and only then
are struct-literal fields parsed (so cycles hit the cache). -/
def GetOrCreateTypeInfoF (pkgPath : Str) :
    Nat → Ctx → GoExpr → Str → Option TypeSpecM → Option (Option Nat × Ctx)
  | 0, _, _, _, _ => none
  | fuel + 1, c, e, typeName, typeSpec =>
    let canonicalName := GetCanonicalNameFromExpr pkgPath e typeName
    match alLookup c.cache canonicalName with
    | some idx => some (some idx, c)
    | none =>
      match NewTypeInfoFromExpr pkgPath e typeName typeSpec with
      | none => some (none, c)
      | some ti =>
        let ti := { ti with cannonicalName := canonicalName }
        let idx := c.arena.length
        let c' : Ctx :=
          { arena := c.arena ++ [ti], cache := mapInsert c.cache canonicalName idx }
        if ti.kind == .structK && ti.structTypeS.isSome then
          match parseFieldsF pkgPath fuel c' idx with
          | some c'' => some (some idx, c'')
          | none => none
        else some (some idx, c')
termination_by structural fuel => fuel

/-- `TypeInfo.parseFields` (struct branch; the method scan is skipped as the
flows carry no `ast.File`, and the container/function/interface branches
concern expression forms outside the modelled fragment). -/
def parseFieldsF (pkgPath : Str) : Nat → Ctx → Nat → Option Ctx
  | 0, _, _ => none
  | fuel + 1, c, idx =>
    match c.arena.get? idx with
    | none => some c
    | some node =>
      if node.kind == .structK then
        match node.structTypeS with
        | some (some fs) =>
          match parseFieldListF pkgPath fuel c idx fs with
          | some c' =>
            some (updateArena c' idx (fun ti => { ti with structTypeS := none }))
          | none => none
        | _ => some c
      else some c
termination_by structural fuel => fuel

/-- The per-field loop of `parseFields`: build the `FieldInfo`, record the
usage edge (embedded or field), then `AddField`. -/
def parseFieldListF (pkgPath : Str) : Nat → Ctx → Nat → FieldList → Option Ctx
  | 0, _, _, _ => none
  | _ + 1, c, _, .nil => some c
  | fuel + 1, c, idx, .cons names ty rest =>
    match NewFieldInfoFromAstF pkgPath fuel c names ty with
    | none => none
    | some (fi, c1) =>
      let c2 :=
        if fi.typeInfo.isSome then
          if fi.isEmbedded then trackEmbeddedUsageF c1 fi.typeInfo idx
          else trackFieldUsageF c1 fi.typeInfo idx fi.name
        else c1
      let c3 := updateArena c2 idx (fun ti => { ti with fields := ti.fields ++ [fi] })
      parseFieldListF pkgPath fuel c3 idx rest
termination_by structural fuel => fuel

/-- `NewFieldInfoFromAst`: parse the typed element, then derive the field
name (embedded fields fall back to the type's name, `EmbeddedField` for
other shapes). -/
def NewFieldInfoFromAstF (pkgPath : Str) :
    Nat → Ctx → List Str → GoExpr → Option (FieldInfoM × Ctx)
  | 0, _, _, _ => none
  | fuel + 1, c, names, ty =>
    match parseTypedElementF pkgPath fuel c ty [] with
    | none => none
    | some (typedElem, c') =>
      let isEmbedded := names.length == 0
      let fieldName :=
        if !isEmbedded then names.headD []
        else if typedElem.name ≠ [] then typedElem.name
        else
          match ty with
          | .ident n => n
          | .sel _ n => n
          | _ => "EmbeddedField".toList
      some ({ name := fieldName, isPointer := typedElem.isPointer,
              typeRef := typedElem.typeRef, typeInfo := typedElem.typeInfo,
              isEmbedded := isEmbedded,
              visibility := determineVisibility fieldName }, c')
termination_by structural fuel => fuel

/-- `parseTypedElement`: unwrap a pointer, resolve the type (anonymous
struct literals get a synthetic name), then fix up visibility and the type
reference. -/
def parseTypedElementF (pkgPath : Str) :
    Nat → Ctx → GoExpr → Str → Option (TypedElementM × Ctx)
  | 0, _, _, _ => none
  | fuel + 1, c, typeExpr0, name =>
    let isPointer := match typeExpr0 with
      | .star _ => true
      | _ => false
    let typeExpr := match typeExpr0 with
      | .star x => x
      | e => e
    let te : TypedElementM :=
      { name := name, isPointer := isPointer, typeRef := [], typeInfo := none,
        visibility := .vprivate }
    match typeExpr with
    | .structLit _ =>
      let syntheticName :=
        if name == [] then "AnonymousType".toList else name ++ "Type".toList
      match GetOrCreateTypeInfoF pkgPath fuel c typeExpr syntheticName none with
      | none => none
      | some (tiIdx, c') => some (finishTypedElement c' te tiIdx typeExpr name, c')
    | _ =>
      match GetOrCreateTypeInfoF pkgPath fuel c typeExpr [] none with
      | none => none
      | some (tiIdx, c') => some (finishTypedElement c' te tiIdx typeExpr name, c')
termination_by structural fuel => fuel
end

/-- `TypeInfo.parseAliasTarget`: resolve the alias target and store the
reference. -/
def parseAliasTargetF (pkgPath : Str) (fuel : Nat) (c : Ctx) (idx : Nat) :
    Option Ctx :=
  match c.arena.get? idx with
  | none => some c
  | some node =>
    if node.isAlias && node.typeSpec.isSome && node.aliasTarget == none then
      match node.typeSpec with
      | none => some c
      | some spec =>
        match GetOrCreateTypeInfoF pkgPath fuel c spec.ty [] none with
        | none => none
        | some (tIdx, c') =>
          match tIdx with
          | none => some c'
          | some t =>
            let targetRef :=
              match c'.arena.get? t with
              | some tnode => tnode.cannonicalName
              | none => []
            some (updateArena c' idx (fun ti =>
              { ti with aliasTarget := some t, aliasTargetRef := targetRef }))
    else some c

/-- Resolution of the argument list of a generic instantiation, in order;
also accumulates `TypeArgumentRefs` (a ref is appended only when the
argument resolved to a node). -/
def resolveTypeArgsF (pkgPath : Str) (fuel : Nat) :
    Ctx → ExprList → Option (List (Option Nat) × List Str × Ctx)
  | c, .nil => some ([], [], c)
  | c, .cons a rest =>
    match GetOrCreateTypeInfoF pkgPath fuel c a [] none with
    | none => none
    | some (aIdx, c') =>
      let refHere :=
        match aIdx with
        | some i =>
          match c'.arena.get? i with
          | some n => [n.cannonicalName]
          | none => []
        | none => []
      match resolveTypeArgsF pkgPath fuel c' rest with
      | none => none
      | some (idxs, refs, c'') => some (aIdx :: idxs, refHere ++ refs, c'')

/-- `TypeInfo.parseGenericInstantiation`: resolve the base and the argument
list, store them on the node, then inherit the base node's kind, field list
and method list (shallow copies, only when nonempty). -/
def parseGenericInstantiationF (pkgPath : Str) (fuel : Nat) (c : Ctx) (idx : Nat) :
    Option Ctx :=
  match c.arena.get? idx with
  | none => some c
  | some node =>
    if !node.isGenericInstantiation || !node.typeSpec.isSome then some c
    else
      match node.typeSpec with
      | none => some c
      | some spec =>
        let step1 : Option Ctx :=
          match spec.ty with
          | .indexE base arg =>
            (match GetOrCreateTypeInfoF pkgPath fuel c base [] none with
             | none => none
             | some (bIdx, c1) =>
               let baseRef :=
                 match bIdx with
                 | some b =>
                   (match c1.arena.get? b with
                    | some bnode => bnode.cannonicalName
                    | none => [])
                 | none => []
               let c1 := updateArena c1 idx (fun ti =>
                 { ti with baseGenericType := bIdx, baseGenericTypeRef := baseRef })
               match GetOrCreateTypeInfoF pkgPath fuel c1 arg [] none with
               | none => none
               | some (aIdx, c2) =>
                 let argRefs :=
                   match aIdx with
                   | some i =>
                     (match c2.arena.get? i with
                      | some anode => [anode.cannonicalName]
                      | none => [])
                   | none => []
                 some (updateArena c2 idx (fun ti =>
                   { ti with typeArguments := [aIdx], typeArgumentRefs := argRefs })))
          | .indexList base args =>
            (match GetOrCreateTypeInfoF pkgPath fuel c base [] none with
             | none => none
             | some (bIdx, c1) =>
               let baseRef :=
                 match bIdx with
                 | some b =>
                   (match c1.arena.get? b with
                    | some bnode => bnode.cannonicalName
                    | none => [])
                 | none => []
               let c1 := updateArena c1 idx (fun ti =>
                 { ti with
                     baseGenericType := bIdx
                     baseGenericTypeRef := baseRef
                     typeArgumentRefs := [] })
               match resolveTypeArgsF pkgPath fuel c1 args with
               | none => none
               | some (idxs, refs, c2) =>
                 some (updateArena c2 idx (fun ti =>
                   { ti with typeArguments := idxs, typeArgumentRefs := refs })))
          | _ => some c
        match step1 with
        | none => none
        | some cAfter =>
          match cAfter.arena.get? idx with
          | none => some cAfter
          | some node' =>
            match node'.baseGenericType with
            | none => some cAfter
            | some b =>
              match cAfter.arena.get? b with
              | none => some cAfter
              | some baseNode =>
                some (updateArena cAfter idx (fun ti =>
                  let ti := { ti with kind := baseNode.kind }
                  let ti :=
                    if baseNode.fields.length > 0 then
                      { ti with fields := baseNode.fields }
                    else ti
                  if baseNode.methods.length > 0 then
                    { ti with methods := baseNode.methods }
                  else ti))

/-- `ProcessResult.AddTypeSpec`: build the skeleton, cache it immediately
(before any population, which is what breaks reference cycles), then parse
type parameters, the alias target, the generic instantiation and the
fields.  Scanning options are modelled as permissive. -/
def AddTypeSpecF (pkgPath : Str) (fuel : Nat) (c : Ctx) (spec : TypeSpecM) :
    Option Ctx :=
  match NewTypeInfoFromExpr pkgPath spec.ty spec.name (some spec) with
  | none => some c
  | some ti =>
    let idx := c.arena.length
    let c1 : Ctx :=
      { arena := c.arena ++ [ti], cache := mapInsert c.cache ti.cannonicalName idx }
    -- parseTypeParams resolves constraints, which the fragment does not carry
    match parseAliasTargetF pkgPath fuel c1 idx with
    | none => none
    | some c2 =>
      match parseGenericInstantiationF pkgPath fuel c2 idx with
      | none => none
      | some c3 => parseFieldsF pkgPath fuel c3 idx

/-! ## Enum reconstruction from constant groups (AddConstBlock) -/

/-- Literal kinds of `ast.BasicLit` relevant to `extractConstValue`. -/
inductive LitKind where
  | intL
  | stringL
  | floatL
  | otherL
deriving DecidableEq, Repr

/-- Constant value expressions (`ast.Expr` forms handled by
`extractConstValue` and `exprToString`). -/
inductive ConstExpr where
  | basicLit (kind : LitKind) (value : Str)
  | identC (name : Str)
  | binary (x : ConstExpr) (op : Str) (y : ConstExpr)
  | paren (x : ConstExpr)
  | unary (op : Str) (x : ConstExpr)
deriving DecidableEq, Repr

/-- `exprToString`: textual form of a constant expression. -/
def exprToString : ConstExpr → Str
  | .identC n => n
  | .basicLit _ v => v
  | .binary x op y => exprToString x ++ ' ' :: (op ++ ' ' :: exprToString y)
  | .paren x => '(' :: (exprToString x ++ [')'])
  | .unary op x => op ++ exprToString x

/-- `evaluateBinaryExpr`: both the `iota <op> literal` branch and the
general branch of the source return the textual form of the expression. -/
def evaluateBinaryExpr (e : ConstExpr) : Str := exprToString e

/-- The dynamically typed (`any`) value of a reconstructed constant. -/
inductive GoVal where
  | vStr (s : Str)
  | vInt (n : Int)
  | vNil
deriving DecidableEq, Repr

/-- `extractConstValue`: string literals lose their surrounding quotes,
numeric literals stay textual, identifiers yield their name, binary
expressions their textual form. -/
def extractConstValue : Option ConstExpr → GoVal
  | none => .vNil
  | some e =>
    match e with
    | .basicLit .stringL v =>
      if v.length ≥ 2 then .vStr ((v.drop 1).take (v.length - 2)) else .vStr v
    | .basicLit .intL v => .vStr v
    | .basicLit .floatL v => .vStr v
    | .basicLit .otherL v => .vStr v
    | .identC n => if n == "iota".toList then .vStr "iota".toList else .vStr n
    | .binary x op y => .vStr (evaluateBinaryExpr (.binary x op y))
    | e' => .vStr (exprToString e')

/-- Digits-only value of a string (`none` on empty or non-digit input). -/
def digitsVal (s : Str) : Option Nat :=
  if s == [] then none
  else
    s.foldl
      (fun acc c =>
        match acc with
        | none => none
        | some n =>
          if 48 ≤ c.toNat && c.toNat ≤ 57 then some (n * 10 + (c.toNat - 48))
          else none)
      (some 0)

/-- Go `strings.Contains`: substring test. -/
def containsSub (pat : Str) : Str → Bool
  | [] => pat.isPrefixOf []
  | c :: rest => pat.isPrefixOf (c :: rest) || containsSub pat rest

/-- Go `strconv.Atoi` (range errors ignored). -/
def parseAtoi (s : Str) : Option Int :=
  match s with
  | '+' :: rest => (digitsVal rest).map Int.ofNat
  | '-' :: rest => (digitsVal rest).map (fun n => -(Int.ofNat n : Int))
  | _ => (digitsVal s).map Int.ofNat

/-- `evaluateIotaExpression`: a bare marker evaluates to the current
sequence position; `iota <op> literal` with a space-separated three-token
shape is evaluated; anything else containing the marker falls back to the
sequence position; a marker-free string is returned as-is. -/
def evaluateIotaExpression (exprStr : Str) (iotaValue : Int) : GoVal :=
  if exprStr == "iota".toList then .vInt iotaValue
  else if containsSub "iota".toList exprStr then
    match exprStr.splitOn ' ' with
    | [p0, p1, p2] =>
      if p0 == "iota".toList then
        match parseAtoi p2 with
        | some operand =>
          if p1 == "+".toList then .vInt (iotaValue + operand)
          else if p1 == "-".toList then .vInt (iotaValue - operand)
          else if p1 == "*".toList then .vInt (iotaValue * operand)
          else if p1 == "/".toList then
            if operand ≠ 0 then .vInt (Int.tdiv iotaValue operand)
            else .vInt iotaValue
          else .vInt iotaValue
        | none => .vInt iotaValue
      else .vInt iotaValue
    | _ => .vInt iotaValue
  else .vStr exprStr

/-- `resolveTypeName` (with `pkg` present). -/
def resolveTypeNameM (pkgPath : Str) : GoExpr → Str
  | .ident n => if ¬IsBasicType n then pkgPath ++ '.' :: n else n
  | .sel p n => p ++ '.' :: n
  | _ => []

/-- A reconstructed `EnumValue` (name, computed value, and the canonical
name of the owning type; the registry node reference shares that canonical
name). -/
structure EnumValueM where
  name : Str
  value : GoVal
  typeRef : Str
deriving DecidableEq, Repr

/-- `ctx.ConstsByType`: appending into the bucket of one type name. -/
def bucketAppend (m : List (Str × List EnumValueM)) (k : Str) (v : EnumValueM) :
    List (Str × List EnumValueM) :=
  if m.any (fun p => p.1 == k) then
    m.map (fun p => if p.1 == k then (p.1, p.2 ++ [v]) else p)
  else m ++ [(k, [v])]

/-- One `ast.ValueSpec` of a constant block: optional explicit type, the
declared names and the value expressions. -/
structure ValueSpecM where
  typeExpr : Option GoExpr
  names : List Str
  values : List ConstExpr
deriving Repr

/-- The per-block state of `AddConstBlock`. -/
structure ConstSt where
  currentTypeName : Str
  iotaValue : Int
  lastIotaExpr : Str
  consts : List (Str × List EnumValueM)
deriving Repr

/-- Processing of a single constant name inside `AddConstBlock`: an
explicit marker-containing value becomes the current pattern; an explicit
marker-free value is taken literally; an omitted value re-evaluates the
last pattern (or a bare marker) at the current sequence position. -/
def addConstName (st : ConstSt) (name : Str) (valueExpr : Option ConstExpr) :
    ConstSt :=
  if st.currentTypeName == [] then st
  else
    let step : GoVal × Str :=
      match valueExpr with
      | some _ =>
        (match extractConstValue valueExpr with
         | .vStr extractedStr =>
           if extractedStr == "iota".toList ||
              containsSub "iota".toList extractedStr then
             (evaluateIotaExpression extractedStr st.iotaValue, extractedStr)
           else (.vStr extractedStr, st.lastIotaExpr)
         | v => (v, st.lastIotaExpr))
      | none =>
        if st.lastIotaExpr ≠ [] then
          (evaluateIotaExpression st.lastIotaExpr st.iotaValue, st.lastIotaExpr)
        else (evaluateIotaExpression "iota".toList st.iotaValue, st.lastIotaExpr)
    let ev : EnumValueM :=
      { name := name, value := step.1, typeRef := st.currentTypeName }
    { st with
        consts := bucketAppend st.consts st.currentTypeName ev
        iotaValue := st.iotaValue + 1
        lastIotaExpr := step.2 }

/-- Processing of one `ValueSpec`: an explicit type resets the sequence
counter and the remembered pattern; each name is then processed with its
value expression (if any) at its index. -/
def addConstSpecStep (pkgPath : Str) (st : ConstSt) (vs : ValueSpecM) : ConstSt :=
  let st :=
    match vs.typeExpr with
    | some te =>
      { st with
          currentTypeName := resolveTypeNameM pkgPath te
          iotaValue := 0
          lastIotaExpr := [] }
    | none => st
  vs.names.enum.foldl
    (fun st p => addConstName st p.2 (vs.values.get? p.1)) st

/-- `ProcessResult.AddConstBlock` (scanning options permissive; registry
interaction is reduced to the canonical type name, which is what the
created `TypeInfo` carries). -/
def AddConstBlockF (pkgPath : Str) (specs : List ValueSpecM) :
    List (Str × List EnumValueM) :=
  (specs.foldl (addConstSpecStep pkgPath)
    { currentTypeName := [], iotaValue := 0, lastIotaExpr := [], consts := [] }).consts

/-! ## Reachability engine (parser package, Orchestrator) -/

/-- `parser.GoBuiltinTypes` / `IsGoBuiltinType`. -/
def IsGoBuiltinType (typeName : Str) : Bool :=
  (["bool", "string", "int", "int8", "int16", "int32", "int64", "uint",
    "uint8", "uint16", "uint32", "uint64", "uintptr", "byte", "rune",
    "float32", "float64", "complex64", "complex128", "error",
    "any"].map String.toList).contains typeName

/-- A parser-level `StructInfo` reduced to what the reachability engine
reads: the name and the textual type names of its fields (the result of
`GetTypeName` on each field type). -/
structure SStructM where
  name : Str
  fieldTypes : List Str
deriving DecidableEq, Repr

/-- Set-semantics insertion for the Go `map[string]bool` sets (membership
is what all readers consume; Go map iteration order is immaterial here). -/
def setInsert (s : List Str) (x : Str) : List Str :=
  if s.contains x then s else s ++ [x]

/-- `extractReferencedTypeNames` with `extractTypeNamesFromExpr` applied to
named field types: builtin names are dropped. -/
def extractReferencedTypeNamesM (structs : List SStructM) : List Str :=
  structs.foldl
    (fun acc s =>
      s.fieldTypes.foldl
        (fun acc t => if !IsGoBuiltinType t then setInsert acc t else acc) acc)
    []

/-- `collectReferencedTypes`: strips one pointer star, unwraps slice and
map syntax, and records non-builtin names.  The fuel argument makes the
string recursion structural; every recursive call shortens the string, so
`length + 1` fuel (used by `collectReferencedTypes0`) never runs out. -/
def collectReferencedTypesM : Nat → Str → List Str → List Str
  | 0, _, referenced => referenced
  | fuel + 1, typeName0, referenced =>
    if typeName0 == [] then referenced
    else
      let typeName := TrimPre ['*'] typeName0
      if strHasPre "[]".toList typeName then
        collectReferencedTypesM fuel (typeName.drop 2) referenced
      else if strHasPre "map[".toList typeName then
        match firstIdxOf ']' typeName with
        | some idx =>
          if 0 < idx && idx + 1 < typeName.length then
            collectReferencedTypesM fuel (typeName.drop (idx + 1)) referenced
          else referenced
        | none => referenced
      else if
        (["string", "int", "int8", "int16", "int32", "int64", "uint",
          "uint8", "uint16", "uint32", "uint64", "float32", "float64",
          "bool", "byte", "rune", "error", "any",
          "interface{}"].map String.toList).contains typeName then referenced
      else setInsert referenced typeName

def collectReferencedTypes0 (typeName : Str) (referenced : List Str) : List Str :=
  collectReferencedTypesM (typeName.length + 1) typeName referenced

/-- `expandReferencedTypes`: depth-unbounded expansion over structural
field edges guarded by a visited set.  Fuel makes the recursion structural;
each non-trivial call adds a new name to the visited set, so fuel beyond
the number of reachable names never runs out. -/
def expandReferencedTypesM (allStructs : List SStructM) :
    Nat → Str → List Str × List Str → List Str × List Str
  | 0, _, st => st
  | fuel + 1, typeName, (referenced, visited) =>
    if visited.contains typeName then (referenced, visited)
    else
      let visited := setInsert visited typeName
      match allStructs.find? (fun s => s.name == typeName) with
      | some s =>
        s.fieldTypes.foldl
          (fun st ft =>
            let r := collectReferencedTypes0 ft st.1
            expandReferencedTypesM allStructs fuel ft (r, st.2))
          (referenced, visited)
      | none => (referenced, visited)

/-- A parser-level `FunctionInfo` reduced to what `buildReferencedTypesMap`
reads: textual parameter and result type names, and the type names carried
by `schema` annotation parameters (after `extractAllTypeNames`). -/
structure FuncM where
  paramTypes : List Str
  resultTypes : List Str
  schemaTypes : List Str
deriving Repr

/-- `Orchestrator.buildReferencedTypesMap`: seed the referenced set from
function signatures and annotations, then expand transitively (this phase
is depth-unbounded). -/
def buildReferencedTypesMapM (functions : List FuncM) (allStructs : List SStructM)
    (expandFuel : Nat) : List Str :=
  let referenced :=
    functions.foldl
      (fun r fn =>
        let r := fn.paramTypes.foldl (fun r t => collectReferencedTypes0 t r) r
        let r := fn.resultTypes.foldl (fun r t => collectReferencedTypes0 t r) r
        fn.schemaTypes.foldl (fun r t => if t ≠ [] then setInsert r t else r) r)
      []
  (referenced.foldl
    (fun st t => expandReferencedTypesM allStructs expandFuel t st)
    (referenced, [])).1

/-- `Orchestrator.filterByReferencedTypes` for structs under `Referenced`
scan mode. -/
def filterByReferencedTypesM (structs : List SStructM) (referencedTypes : List Str) :
    List SStructM :=
  structs.filter (fun s => referencedTypes.contains s.name)

/-- The state of `parseReferencedTypes`: the parser's struct universe, the
already-parsed type names, and the worklist. -/
structure RTState where
  parserStructs : List SStructM
  parsedTypes : List Str
  typesToFind : List Str
deriving Repr

/-- `findAndParseType`: modelled against the module universe `world`; on
success the found struct is added to the parser state. -/
def findAndParseTypeM (world : List SStructM) (parserStructs : List SStructM)
    (typeName : Str) : Bool × List SStructM :=
  match world.find? (fun s => s.name == typeName) with
  | some s => (true, parserStructs ++ [s])
  | none => (false, parserStructs)

/-- The iteration of `parseReferencedTypes` for a positive max depth (the
`maxDepth == 0` unlimited mode is outside the modelled configurations).
The loop guard is `currentDepth < maxDepth`; each iteration increments
`currentDepth`, so `maxDepth` fuel is exact. -/
def rtLoop (world : List SStructM) (maxDepth : Nat) :
    Nat → Nat → RTState → RTState
  | 0, _, st => st
  | fuel + 1, currentDepth, st =>
    if currentDepth < maxDepth then
      if st.typesToFind == [] then st
      else
        let newTypes := st.typesToFind.filter (fun t => !st.parsedTypes.contains t)
        if newTypes == [] then st
        else
          let step :=
            newTypes.foldl
              (fun acc t =>
                let (found, ps') := findAndParseTypeM world acc.2.1 t
                if found then (true, ps', setInsert acc.2.2 t)
                else (acc.1, ps', acc.2.2))
              (false, st.parserStructs, st.parsedTypes)
          let st' : RTState :=
            { parserStructs := step.2.1, parsedTypes := step.2.2,
              typesToFind := st.typesToFind }
          if !step.1 then st'
          else
            let typesToFind' :=
              if currentDepth + 1 < maxDepth then
                extractReferencedTypeNamesM st'.parserStructs
              else []
            rtLoop world maxDepth fuel (currentDepth + 1)
              { st' with typesToFind := typesToFind' }
    else st

/-- `Orchestrator.parseReferencedTypes` (structs only; the enum bookkeeping
is identical and carries no data the claims read). -/
def parseReferencedTypesM (world : List SStructM) (structs0 : List SStructM)
    (maxDepth : Nat) : RTState :=
  let parsedTypes0 := structs0.foldl (fun acc s => setInsert acc s.name) []
  let typesToFind0 := extractReferencedTypeNamesM structs0
  rtLoop world maxDepth maxDepth 0
    { parserStructs := structs0, parsedTypes := parsedTypes0,
      typesToFind := typesToFind0 }

/-- The referenced-scan-mode pipeline of `Orchestrator.Process`: parse the
depth-bounded referenced universe, build the (unbounded) referenced-types
map from function seeds over that universe, and filter. -/
def referencedModeStructsM (world : List SStructM) (structs0 : List SStructM)
    (functions : List FuncM) (maxDepth : Nat) : List SStructM :=
  let rt := parseReferencedTypesM world structs0 maxDepth
  let allStructs := rt.parserStructs
  let expandFuel :=
    (allStructs.foldl (fun n s => n + s.fieldTypes.length) 0) + 2
  let referenced := buildReferencedTypesMapM functions allStructs expandFuel
  filterByReferencedTypesM allStructs referenced

/-! ## Concrete scenarios used by the theorems -/

/-- The reference chain `S → A → B` of the reachability scenario. -/
def worldSAB : List SStructM :=
  [ { name := "S".toList, fieldTypes := ["A".toList] },
    { name := "A".toList, fieldTypes := ["B".toList] },
    { name := "B".toList, fieldTypes := [] } ]

/-- The seed struct `S` (already scanned). -/
def structS : SStructM := { name := "S".toList, fieldTypes := ["A".toList] }

/-- A function referencing `S` (the annotation-driven seed of referenced
mode). -/
def funcSeedS : FuncM :=
  { paramTypes := ["S".toList], resultTypes := [], schemaTypes := [] }

/-- The constant block `A T = 5; B; C` of the enum scenario. -/
def constBlockA5BC : List ValueSpecM :=
  [ { typeExpr := some (.ident "T".toList), names := ["A".toList],
      values := [.basicLit .intL "5".toList] },
    { typeExpr := none, names := ["B".toList], values := [] },
    { typeExpr := none, names := ["C".toList], values := [] } ]

/-- A registry with a parent node `pkg.P` (slot 0) and a field-type node
`pkg.F` (slot 1), both with empty usage lists. -/
def usageCtx : Ctx :=
  { arena :=
      [{ baseTypeInfo "pkg".toList "P".toList none with
          cannonicalName := "pkg.P".toList },
       { baseTypeInfo "pkg".toList "F".toList none with
          cannonicalName := "pkg.F".toList }]
    cache := [("pkg.P".toList, 0), ("pkg.F".toList, 1)] }

/-- The registry state after registering `pkg.A` once from the empty
registry. -/
def ctxAfterA : Ctx :=
  ((GetOrCreateTypeInfoF "pkg".toList 2 ⟨[], []⟩ (.ident "A".toList) [] none).getD
    (none, ⟨[], []⟩)).2

/-! ## Measures and evolution predicates used by the proofs -/

/-- Number of fields of an `ast.FieldList`. -/
def flLength : FieldList → Nat
  | .nil => 0
  | .cons _ _ rest => flLength rest + 1

/-- Concatenation of field lists. -/
def flApp : FieldList → FieldList → FieldList
  | .nil, gs => gs
  | .cons ns ty rest, gs => .cons ns ty (flApp rest gs)

mutual
/-- Fuel sufficient for `GetOrCreateTypeInfoF` on an expression: the
registration recursion descends only into sub-expressions (named references
hit the cache or stop), so linear fuel in the expression size suffices. -/
def exprFuel : GoExpr → Nat
  | .ident _ => 1
  | .sel _ _ => 1
  | .star x => exprFuel x
  | .structLit fs => fieldsFuel fs + 2
  | .indexE _ _ => 2
  | .indexList _ _ => 2

/-- Fuel sufficient for `parseFieldListF` on a field list. -/
def fieldsFuel : FieldList → Nat
  | .nil => 1
  | .cons _ ty rest => max (exprFuel ty + 2) (fieldsFuel rest) + 1
end

/-- Cache monotonicity: every canonical-name binding survives (the engine
never overwrites a cached node). -/
def cacheMono (c c' : Ctx) : Prop :=
  ∀ k v, alLookup c.cache k = some v → alLookup c'.cache k = some v

/-- Node evolution that only touches the usage list: identity on every
other component. -/
def nodeUsageOnly (n n' : TypeInfoM) : Prop :=
  n' = { n with usageInfo := n'.usageInfo }

/-- Arena evolution of `GetOrCreateTypeInfo` and the element parsers: nodes
are only appended, and pre-existing nodes change at most in their usage
information. -/
def usageOnlyEvo (c c' : Ctx) : Prop :=
  c.arena.length ≤ c'.arena.length ∧
  ∀ i n, c.arena.get? i = some n →
    ∃ n', c'.arena.get? i = some n' ∧ nodeUsageOnly n n'

/-- Arena evolution of the field-parsing loop at node `idx`: pre-existing
nodes other than `idx` change at most in usage information, while node
`idx` additionally gets exactly `k` field entries appended (and possibly a
new deferred-parsing slot). -/
def fieldsAppendEvo (idx k : Nat) (c c' : Ctx) : Prop :=
  c.arena.length ≤ c'.arena.length ∧
  (∀ i n, c.arena.get? i = some n → i ≠ idx →
    ∃ n', c'.arena.get? i = some n' ∧ nodeUsageOnly n n') ∧
  (∀ n, c.arena.get? idx = some n →
    ∃ n' entries, c'.arena.get? idx = some n' ∧ entries.length = k ∧
      n' = { n with
              usageInfo := n'.usageInfo
              fields := n.fields ++ entries
              structTypeS := n'.structTypeS })

/-- Consistency of the derived embedded-only flag of one node: the flag
equals true exactly when the usage list has at least one embedded edge and
no direct (field/parameter/return) edge. -/
def usageFlagOk (node : TypeInfoM) : Bool :=
  match node.usageInfo with
  | none => true
  | some u =>
    u.isOnlyEmbedded == (u.embeddedIn.length > 0 && u.referencedIn.length == 0)

/-- The pointer-unwrap step of `parseTypedElement`. -/
def stripStar : GoExpr → GoExpr
  | .star x => x
  | e => e

/-- Sample generic base node `pkg.Node` with one field and one method. -/
def c5BaseNodeS : TypeInfoM :=
  { baseTypeInfo "pkg".toList "Node".toList none with
      fields := [{ name := "value".toList, isPointer := false, typeRef := "T".toList,
                   typeInfo := none, isEmbedded := false, visibility := Visibility.vpublic }]
      methods := [{ name := "GetValue".toList }] }

/-- Sample argument node `pkg.Character`. -/
def c5ChNodeS : TypeInfoM := baseTypeInfo "pkg".toList "Character".toList none

/-- Registry holding the sample base and argument nodes. -/
def c5CtxS : Ctx :=
  { arena := [c5BaseNodeS, c5ChNodeS]
    cache := [("pkg.Node".toList, 0), ("pkg.Character".toList, 1)] }

/-! ## Helper lemmas -/

theorem alLookup_nil {α : Type} (k : Str) : alLookup ([] : List (Str × α)) k = none :=
  rfl

theorem alLookup_cons {α : Type} (p : Str × α) (m : List (Str × α)) (k : Str) :
    alLookup (p :: m) k = if p.1 == k then some p.2 else alLookup m k := by
  unfold alLookup
  rw [List.find?_cons]
  cases h : (p.1 == k)
  · simp only [h, Bool.false_eq_true, if_false]
  · simp only [h, if_true]

theorem alLookup_none_any {α : Type} (m : List (Str × α)) (k : Str)
    (h : alLookup m k = none) : m.any (fun p => p.1 == k) = false := by
  induction m with
  | nil => rfl
  | cons p rest ih =>
    rw [alLookup_cons] at h
    rw [List.any_cons]
    cases hp : (p.1 == k)
    · rw [hp] at h
      simp only [Bool.false_eq_true, if_false] at h
      simp only [Bool.false_or]
      exact ih h
    · rw [hp] at h
      simp only [if_true] at h
      simp at h

theorem alLookup_append_left {α : Type} (m₁ m₂ : List (Str × α)) (k : Str) (v : α)
    (h : alLookup m₁ k = some v) : alLookup (m₁ ++ m₂) k = some v := by
  induction m₁ with
  | nil => simp [alLookup_nil] at h
  | cons p rest ih =>
    rw [alLookup_cons] at h
    rw [List.cons_append, alLookup_cons]
    cases hp : (p.1 == k)
    · rw [hp] at h
      simp only [Bool.false_eq_true, if_false] at h ⊢
      exact ih h
    · rw [hp] at h
      simp only [if_true] at h ⊢
      exact h

theorem mapInsert_of_none {α : Type} (m : List (Str × α)) (k : Str) (v : α)
    (hnone : alLookup m k = none) : mapInsert m k v = m ++ [(k, v)] := by
  unfold mapInsert
  rw [alLookup_none_any m k hnone]
  simp only [Bool.false_eq_true, if_false]

theorem alLookup_mapInsert_self {α : Type} (m : List (Str × α)) (k : Str) (v : α)
    (hnone : alLookup m k = none) : alLookup (mapInsert m k v) k = some v := by
  rw [mapInsert_of_none m k v hnone]
  induction m with
  | nil => simp [alLookup_cons]
  | cons p rest ih =>
    rw [alLookup_cons] at hnone
    rw [List.cons_append, alLookup_cons]
    cases hp : (p.1 == k)
    · rw [hp] at hnone
      simp only [Bool.false_eq_true, if_false] at hnone ⊢
      exact ih hnone
    · rw [hp] at hnone
      simp only [if_true] at hnone
      simp at hnone

theorem alLookup_mapInsert_preserve {α : Type} (m : List (Str × α)) (k k' : Str)
    (v w : α) (hnone : alLookup m k = none) (h : alLookup m k' = some w) :
    alLookup (mapInsert m k v) k' = some w := by
  rw [mapInsert_of_none m k v hnone]
  exact alLookup_append_left m [(k, v)] k' w h

theorem listModify_length (l : List TypeInfoM) (i : Nat) (f : TypeInfoM → TypeInfoM) :
    (updateArena.listModify l i f).length = l.length := by
  induction l generalizing i with
  | nil => rfl
  | cons x xs ih =>
    cases i with
    | zero => rfl
    | succ n => simp [updateArena.listModify, ih]

theorem listModify_get_self (l : List TypeInfoM) (i : Nat) (f : TypeInfoM → TypeInfoM) :
    (updateArena.listModify l i f).get? i = (l.get? i).map f := by
  induction l generalizing i with
  | nil => cases i <;> rfl
  | cons x xs ih =>
    cases i with
    | zero => rfl
    | succ n => exact ih n

theorem listModify_get_other (l : List TypeInfoM) (i j : Nat)
    (f : TypeInfoM → TypeInfoM) (h : j ≠ i) :
    (updateArena.listModify l i f).get? j = l.get? j := by
  induction l generalizing i j with
  | nil => cases i <;> rfl
  | cons x xs ih =>
    cases i with
    | zero =>
      cases j with
      | zero => exact absurd rfl h
      | succ m => rfl
    | succ n =>
      cases j with
      | zero => rfl
      | succ m => simpa [updateArena.listModify] using ih n m (fun hh => h (by omega))

theorem get?_append_left (l₁ l₂ : List TypeInfoM) (i : Nat) (n : TypeInfoM)
    (h : l₁.get? i = some n) : (l₁ ++ l₂).get? i = some n := by
  induction l₁ generalizing i with
  | nil => simp at h
  | cons x xs ih =>
    cases i with
    | zero => simpa using h
    | succ m => simpa using ih m (by simpa using h)

theorem get?_concat_self (l : List TypeInfoM) (x : TypeInfoM) :
    (l ++ [x]).get? l.length = some x := by
  induction l with
  | nil => rfl
  | cons y ys ih => exact ih

theorem nodeUsageOnly_refl (n : TypeInfoM) : nodeUsageOnly n n := rfl

theorem nodeUsageOnly_trans {a b c : TypeInfoM} (h₁ : nodeUsageOnly a b)
    (h₂ : nodeUsageOnly b c) : nodeUsageOnly a c := by
  unfold nodeUsageOnly at *
  rw [h₂, h₁]

theorem usageOnlyEvo_refl (c : Ctx) : usageOnlyEvo c c :=
  ⟨le_refl _, fun _ n h => ⟨n, h, nodeUsageOnly_refl n⟩⟩

theorem usageOnlyEvo_trans {c₁ c₂ c₃ : Ctx} (h₁ : usageOnlyEvo c₁ c₂)
    (h₂ : usageOnlyEvo c₂ c₃) : usageOnlyEvo c₁ c₃ := by
  refine ⟨le_trans h₁.1 h₂.1, fun i n hn => ?_⟩
  obtain ⟨n', hn', hu'⟩ := h₁.2 i n hn
  obtain ⟨n'', hn'', hu''⟩ := h₂.2 i n' hn'
  exact ⟨n'', hn'', nodeUsageOnly_trans hu' hu''⟩

theorem usageOnly_then_fields {idx k : Nat} {c₁ c₂ c₃ : Ctx}
    (h₁ : usageOnlyEvo c₁ c₂) (h₂ : fieldsAppendEvo idx k c₂ c₃) :
    fieldsAppendEvo idx k c₁ c₃ := by
  refine ⟨le_trans h₁.1 h₂.1, fun i n hn hne => ?_, fun n hn => ?_⟩
  · obtain ⟨n', hn', hu'⟩ := h₁.2 i n hn
    obtain ⟨n'', hn'', hu''⟩ := h₂.2.1 i n' hn' hne
    exact ⟨n'', hn'', nodeUsageOnly_trans hu' hu''⟩
  · obtain ⟨n', hn', hu'⟩ := h₁.2 idx n hn
    obtain ⟨n'', entries, hn'', hk, he⟩ := h₂.2.2 n' hn'
    refine ⟨n'', entries, hn'', hk, ?_⟩
    rw [he, hu']

theorem fields_then_usageOnly {idx k : Nat} {c₁ c₂ c₃ : Ctx}
    (h₁ : fieldsAppendEvo idx k c₁ c₂) (h₂ : usageOnlyEvo c₂ c₃) :
    fieldsAppendEvo idx k c₁ c₃ := by
  refine ⟨le_trans h₁.1 h₂.1, fun i n hn hne => ?_, fun n hn => ?_⟩
  · obtain ⟨n', hn', hu'⟩ := h₁.2.1 i n hn hne
    obtain ⟨n'', hn'', hu''⟩ := h₂.2 i n' hn'
    exact ⟨n'', hn'', nodeUsageOnly_trans hu' hu''⟩
  · obtain ⟨n', entries, hn', hk, he⟩ := h₁.2.2 n hn
    obtain ⟨n'', hn'', hu''⟩ := h₂.2 idx n' hn'
    refine ⟨n'', entries, hn'', hk, ?_⟩
    unfold nodeUsageOnly at hu''
    rw [hu'', he]

theorem fields_then_fields {idx k₁ k₂ : Nat} {c₁ c₂ c₃ : Ctx}
    (h₁ : fieldsAppendEvo idx k₁ c₁ c₂) (h₂ : fieldsAppendEvo idx k₂ c₂ c₃) :
    fieldsAppendEvo idx (k₁ + k₂) c₁ c₃ := by
  refine ⟨le_trans h₁.1 h₂.1, fun i n hn hne => ?_, fun n hn => ?_⟩
  · obtain ⟨n', hn', hu'⟩ := h₁.2.1 i n hn hne
    obtain ⟨n'', hn'', hu''⟩ := h₂.2.1 i n' hn' hne
    exact ⟨n'', hn'', nodeUsageOnly_trans hu' hu''⟩
  · obtain ⟨n', e₁, hn', hk₁, he₁⟩ := h₁.2.2 n hn
    obtain ⟨n'', e₂, hn'', hk₂, he₂⟩ := h₂.2.2 n' hn'
    refine ⟨n'', e₁ ++ e₂, hn'', by simp [hk₁, hk₂], ?_⟩
    rw [he₂, he₁]
    simp

theorem fieldsAppendEvo_refl (idx : Nat) (c : Ctx) : fieldsAppendEvo idx 0 c c := by
  refine ⟨le_refl _, fun i n hn _ => ⟨n, hn, nodeUsageOnly_refl n⟩, fun n hn => ?_⟩
  exact ⟨n, [], hn, rfl, by simp⟩

theorem fieldsAppendEvo_of_usageOnly {idx : Nat} {c₁ c₂ : Ctx}
    (h : usageOnlyEvo c₁ c₂) : fieldsAppendEvo idx 0 c₁ c₂ :=
  usageOnly_then_fields h (fieldsAppendEvo_refl idx c₂)

theorem updateArena_length (c : Ctx) (i : Nat) (f : TypeInfoM → TypeInfoM) :
    c.arena.length ≤ (updateArena c i f).arena.length := by
  show c.arena.length ≤ (updateArena.listModify c.arena i f).length
  rw [listModify_length]

theorem updateArena_get_self (c : Ctx) (i : Nat) (f : TypeInfoM → TypeInfoM)
    (n : TypeInfoM) (hn : c.arena.get? i = some n) :
    (updateArena c i f).arena.get? i = some (f n) := by
  show (updateArena.listModify c.arena i f).get? i = some (f n)
  rw [listModify_get_self, hn]
  rfl

theorem updateArena_get_other (c : Ctx) (i j : Nat) (f : TypeInfoM → TypeInfoM)
    (h : j ≠ i) : (updateArena c i f).arena.get? j = c.arena.get? j := by
  show (updateArena.listModify c.arena i f).get? j = c.arena.get? j
  rw [listModify_get_other _ _ _ _ h]

theorem updateArena_usageOnly (c : Ctx) (i : Nat) (f : TypeInfoM → TypeInfoM)
    (hf : ∀ x, nodeUsageOnly x (f x)) : usageOnlyEvo c (updateArena c i f) := by
  refine ⟨updateArena_length c i f, fun j n hn => ?_⟩
  by_cases hj : j = i
  · subst hj
    exact ⟨f n, updateArena_get_self c j f n hn, hf n⟩
  · refine ⟨n, ?_, nodeUsageOnly_refl n⟩
    rw [updateArena_get_other c i j f hj]
    exact hn

theorem updateArena_addField (c : Ctx) (idx : Nat) (fi : FieldInfoM) :
    fieldsAppendEvo idx 1 c
      (updateArena c idx (fun ti => { ti with fields := ti.fields ++ [fi] })) := by
  refine ⟨updateArena_length c idx _, fun j n hn hne => ?_, fun n hn => ?_⟩
  · refine ⟨n, ?_, nodeUsageOnly_refl n⟩
    rw [updateArena_get_other c idx j _ hne]
    exact hn
  · exact ⟨{ n with fields := n.fields ++ [fi] }, [fi],
      updateArena_get_self c idx _ n hn, rfl, rfl⟩

theorem updateArena_structTypeS (c : Ctx) (idx : Nat)
    (g : Option (Option FieldList)) :
    fieldsAppendEvo idx 0 c
      (updateArena c idx (fun ti => { ti with structTypeS := g })) := by
  refine ⟨updateArena_length c idx _, fun j n hn hne => ?_, fun n hn => ?_⟩
  · refine ⟨n, ?_, nodeUsageOnly_refl n⟩
    rw [updateArena_get_other c idx j _ hne]
    exact hn
  · refine ⟨{ n with structTypeS := g }, [],
      updateArena_get_self c idx _ n hn, rfl, by simp⟩

theorem trackFieldUsageF_cache (c : Ctx) (a : Option Nat) (b : Nat) (nm : Str) :
    (trackFieldUsageF c a b nm).cache = c.cache := by
  unfold trackFieldUsageF
  repeat' split
  all_goals rfl

theorem trackFieldUsageF_evo (c : Ctx) (a : Option Nat) (b : Nat) (nm : Str) :
    usageOnlyEvo c (trackFieldUsageF c a b nm) := by
  unfold trackFieldUsageF
  repeat' split
  all_goals
    first
    | exact usageOnlyEvo_refl c
    | exact updateArena_usageOnly c _ _ (fun x => rfl)

theorem trackEmbeddedUsageF_cache (c : Ctx) (a : Option Nat) (b : Nat) :
    (trackEmbeddedUsageF c a b).cache = c.cache := by
  unfold trackEmbeddedUsageF
  repeat' split
  all_goals rfl

theorem trackEmbeddedUsageF_evo (c : Ctx) (a : Option Nat) (b : Nat) :
    usageOnlyEvo c (trackEmbeddedUsageF c a b) := by
  unfold trackEmbeddedUsageF
  repeat' split
  all_goals
    first
    | exact usageOnlyEvo_refl c
    | exact updateArena_usageOnly c _ _ (fun x => rfl)

theorem get?_some_lt (l : List TypeInfoM) (i : Nat) (n : TypeInfoM)
    (h : l.get? i = some n) : i < l.length := by
  induction l generalizing i with
  | nil => cases i <;> simp at h
  | cons x xs ih =>
    cases i with
    | zero => simp
    | succ m => exact Nat.succ_lt_succ (ih m (by simpa using h))

set_option maxHeartbeats 1000000 in
/-- State evolution of the registration engine: on success the cache only
gains bindings (never losing or overwriting one), nodes are only appended,
and pre-existing nodes change at most in usage information — except that
the field loop additionally appends exactly one field entry per declared
field to its target node. -/
theorem engineEvo : ∀ fuel : Nat,
    (∀ pk c e tn sp r c',
        GetOrCreateTypeInfoF pk fuel c e tn sp = some (r, c') →
        cacheMono c c' ∧ usageOnlyEvo c c') ∧
    (∀ pk c idx c',
        parseFieldsF pk fuel c idx = some c' →
        cacheMono c c' ∧ ∃ k, fieldsAppendEvo idx k c c') ∧
    (∀ pk c idx fs c',
        parseFieldListF pk fuel c idx fs = some c' →
        cacheMono c c' ∧ fieldsAppendEvo idx (flLength fs) c c') ∧
    (∀ pk c ns ty fi c',
        NewFieldInfoFromAstF pk fuel c ns ty = some (fi, c') →
        cacheMono c c' ∧ usageOnlyEvo c c') ∧
    (∀ pk c ty nm te c',
        parseTypedElementF pk fuel c ty nm = some (te, c') →
        cacheMono c c' ∧ usageOnlyEvo c c') := by
  intro fuel
  induction fuel with
  | zero =>
    refine ⟨?_, ?_, ?_, ?_, ?_⟩ <;> intros <;>
      simp_all [GetOrCreateTypeInfoF, parseFieldsF, parseFieldListF,
        NewFieldInfoFromAstF, parseTypedElementF]
  | succ fuel ih =>
    obtain ⟨ihG, ihPF, ihFL, ihNF, ihTE⟩ := ih
    have stepIns : ∀ (c : Ctx) (ti : TypeInfoM) (key : Str),
        alLookup c.cache key = none →
        cacheMono c ⟨c.arena ++ [ti], mapInsert c.cache key c.arena.length⟩ ∧
        usageOnlyEvo c ⟨c.arena ++ [ti], mapInsert c.cache key c.arena.length⟩ := by
      intro c ti key hnone
      refine ⟨fun k v hk => alLookup_mapInsert_preserve _ _ _ _ _ hnone hk,
        ⟨by simp, fun i n hn => ⟨n, get?_append_left _ _ _ _ hn, nodeUsageOnly_refl n⟩⟩⟩
    have hG : ∀ pk c e tn sp r c',
        GetOrCreateTypeInfoF pk (fuel + 1) c e tn sp = some (r, c') →
        cacheMono c c' ∧ usageOnlyEvo c c' := by
      intro pk c e tn sp r c' h
      simp only [GetOrCreateTypeInfoF] at h
      split at h
      · cases h
        exact ⟨fun k v hk => hk, usageOnlyEvo_refl c⟩
      · rename_i hnone
        split at h
        · cases h
          exact ⟨fun k v hk => hk, usageOnlyEvo_refl c⟩
        · rename_i ti hti
          split at h
          · split at h
            · rename_i c'' hpf
              cases h
              have hstep := stepIns c
                { ti with cannonicalName := GetCanonicalNameFromExpr pk e tn } _ hnone
              have hrec := ihPF pk _ _ _ hpf
              obtain ⟨k, hfa⟩ := hrec.2
              refine ⟨fun k v hk => hrec.1 _ _ (hstep.1 _ _ hk), ?_, ?_⟩
              · exact le_trans (by simp) hfa.1
              · intro i n hn
                have hlt := get?_some_lt _ _ _ hn
                exact hfa.2.1 i n (get?_append_left _ _ _ _ hn) (by omega)
            · exact absurd h (by simp)
          · cases h
            exact stepIns c
              { ti with cannonicalName := GetCanonicalNameFromExpr pk e tn } _ hnone
    have htrack : ∀ (cx : Ctx) (fiv : FieldInfoM) (ix : Nat),
        usageOnlyEvo cx
          (if fiv.typeInfo.isSome then
            if fiv.isEmbedded then trackEmbeddedUsageF cx fiv.typeInfo ix
            else trackFieldUsageF cx fiv.typeInfo ix fiv.name
          else cx) ∧
        (if fiv.typeInfo.isSome then
            if fiv.isEmbedded then trackEmbeddedUsageF cx fiv.typeInfo ix
            else trackFieldUsageF cx fiv.typeInfo ix fiv.name
          else cx).cache = cx.cache := by
      intro cx fiv ix
      split
      · split
        · exact ⟨trackEmbeddedUsageF_evo cx fiv.typeInfo ix,
            trackEmbeddedUsageF_cache cx fiv.typeInfo ix⟩
        · exact ⟨trackFieldUsageF_evo cx fiv.typeInfo ix fiv.name,
            trackFieldUsageF_cache cx fiv.typeInfo ix fiv.name⟩
      · exact ⟨usageOnlyEvo_refl cx, rfl⟩
    have hFL : ∀ pk c idx fs c',
        parseFieldListF pk (fuel + 1) c idx fs = some c' →
        cacheMono c c' ∧ fieldsAppendEvo idx (flLength fs) c c' := by
      intro pk c idx fs c' h
      cases fs with
      | nil =>
        simp only [parseFieldListF] at h
        cases h
        refine ⟨fun k v hk => hk, ?_⟩
        simpa [flLength] using fieldsAppendEvo_refl idx c
      | cons ns ty rest =>
        simp only [parseFieldListF] at h
        split at h
        · exact absurd h (by simp)
        · rename_i fi c₁ hnf
          have hrecNF := ihNF pk c ns ty fi c₁ hnf
          have ht := htrack c₁ fi idx
          have hrecFL := ihFL pk _ idx rest c' h
          constructor
          · intro k v hk
            apply hrecFL.1
            show alLookup (updateArena _ idx _).cache k = some v
            rw [show (updateArena (if fi.typeInfo.isSome then
                if fi.isEmbedded then trackEmbeddedUsageF c₁ fi.typeInfo idx
                else trackFieldUsageF c₁ fi.typeInfo idx fi.name
              else c₁) idx (fun ti => { ti with fields := ti.fields ++ [fi] })).cache
              = c₁.cache from ht.2]
            exact hrecNF.1 _ _ hk
          · have e1 : usageOnlyEvo c _ := usageOnlyEvo_trans hrecNF.2 ht.1
            have e2 := updateArena_addField (if fi.typeInfo.isSome then
                if fi.isEmbedded then trackEmbeddedUsageF c₁ fi.typeInfo idx
                else trackFieldUsageF c₁ fi.typeInfo idx fi.name
              else c₁) idx fi
            have e3 := fields_then_fields e2 hrecFL.2
            have e4 := usageOnly_then_fields e1 e3
            simpa [flLength, Nat.add_comm] using e4
    have hPF : ∀ pk c idx c',
        parseFieldsF pk (fuel + 1) c idx = some c' →
        cacheMono c c' ∧ ∃ k, fieldsAppendEvo idx k c c' := by
      intro pk c idx c' h
      simp only [parseFieldsF] at h
      split at h
      · cases h
        exact ⟨fun k v hk => hk, 0, fieldsAppendEvo_refl idx c⟩
      · split at h
        · split at h
          · rename_i fs hsts
            split at h
            · rename_i c₂ hfl
              cases h
              have hrec := ihFL pk c idx fs c₂ hfl
              refine ⟨fun k v hk => hrec.1 _ _ hk, flLength fs + 0, ?_⟩
              exact fields_then_fields hrec.2 (updateArena_structTypeS c₂ idx none)
            · exact absurd h (by simp)
          · cases h
            exact ⟨fun k v hk => hk, 0, fieldsAppendEvo_refl idx c⟩
        · cases h
          exact ⟨fun k v hk => hk, 0, fieldsAppendEvo_refl idx c⟩
    have hTE : ∀ pk c ty nm te c',
        parseTypedElementF pk (fuel + 1) c ty nm = some (te, c') →
        cacheMono c c' ∧ usageOnlyEvo c c' := by
      intro pk c ty nm te c' h
      simp only [parseTypedElementF] at h
      split at h <;>
        · split at h
          · exact absurd h (by simp)
          · rename_i tiIdx c1 hg
            obtain ⟨hte, hc⟩ := Prod.mk.inj (Option.some.inj h)
            subst hc
            exact ihG pk c _ _ none tiIdx c1 hg
    have hNF : ∀ pk c ns ty fi c',
        NewFieldInfoFromAstF pk (fuel + 1) c ns ty = some (fi, c') →
        cacheMono c c' ∧ usageOnlyEvo c c' := by
      intro pk c ns ty fi c' h
      simp only [NewFieldInfoFromAstF] at h
      split at h
      · exact absurd h (by simp)
      · rename_i te1 c1 hte
        obtain ⟨hfi, hc⟩ := Prod.mk.inj (Option.some.inj h)
        subst hc
        exact ihTE pk c ty [] te1 c1 hte
    exact ⟨hG, hPF, hFL, hNF, hTE⟩

theorem annotationsOfComment_all_nonempty (text : Str) :
    (annotationsOfComment text).all (fun a => !(a.name == [])) = true := by
  unfold annotationsOfComment
  generalize ((cleanCommentText text).splitOn (Char.ofNat 10)) = lines
  induction lines with
  | nil => rfl
  | cons l ls ih =>
    simp only [List.foldr_cons]
    split
    · split
      · next h _ =>
        simp only [List.all_cons, Bool.and_eq_true]
        refine ⟨?_, ih⟩
        simp_all
      · exact ih
    · exact ih

theorem parseAnnotationsM_all_nonempty (comments : List Str) :
    (ParseAnnotationsM comments).all (fun a => !(a.name == [])) = true := by
  induction comments with
  | nil => rfl
  | cons c cs ih =>
    simp only [ParseAnnotationsM, List.map_cons, List.flatten_cons, List.all_append,
      Bool.and_eq_true] at *
    exact ⟨annotationsOfComment_all_nonempty c, ih⟩

/-! ## Claim theorems -/

/-- C7: parsing `@schema(title:"Product", readonly, description:"A product")`
yields name `schema` and the parameter map
`{title ↦ Product, readonly ↦ true, description ↦ A product}`: the bare
token becomes a boolean flag stored as `"true"` and quoted values lose
their quotes. -/
theorem c7_schema_line_parses_to_flag_and_values :
    (parseAnnotationM
      "@schema(title:\"Product\", readonly, description:\"A product\")".toList).name
        = "schema".toList ∧
    (parseAnnotationM
      "@schema(title:\"Product\", readonly, description:\"A product\")".toList).params
        = [("title".toList, "Product".toList),
           ("readonly".toList, "true".toList),
           ("description".toList, "A product".toList)] := by
  constructor <;> rfl

/-- C6 counterexample: the annotation scanner has no backslash-escape
handling.  In `@x(title:"a\",b")` the escaped quote `\"` terminates the
quoted string, so the internal comma splits the parameter list: the result
is `{title ↦ a\, b ↦ true}` instead of the single parameter
`{title ↦ a",b}` that escape support would produce. -/
theorem c6_escaped_quote_terminates_string :
    (parseAnnotationM "@x(title:\"a\\\",b\")".toList).params
        = [("title".toList, "a\\".toList), ("b".toList, "true".toList)] ∧
    alLookup (parseAnnotationM "@x(title:\"a\\\",b\")".toList).params
        "title".toList ≠ some "a\",b".toList := by
  constructor <;> decide

/-- C6 amended: quoted strings are scanned without backslash-escape
support — a backslash is an ordinary character that never alters the quote
state (so an escaped quote still closes the string), while unescaped
internal commas, spaces and brackets inside quotes are preserved in the
parsed value. -/
theorem c6_quotes_preserve_content_without_escapes :
    (∀ st : ScanSt,
        ppSplitStep st (Char.ofNat 92)
          = { st with current := st.current ++ [Char.ofNat 92] }) ∧
    (parseParamsParentheses "title:\"a,b [c] d\"".toList
        = [("title".toList, "a,b [c] d".toList)]) ∧
    (parseParamsParentheses "title:\"a\\\",b\"".toList
        = [("title".toList, "a\\".toList), ("b".toList, "true".toList)]) := by
  refine ⟨fun st => rfl, ?_, ?_⟩ <;> rfl

/-- C9: annotation parsing is total (all parsing functions are plain total
functions of the input line) and never aborts: a line with no name
contributes an empty result that the collector drops (every collected
annotation has a nonempty name), and an unterminated quote degrades to a
partial result rather than an error. -/
theorem c9_malformed_lines_degrade_without_error :
    (∀ comments : List Str,
        (ParseAnnotationsM comments).all (fun a => !(a.name == [])) = true) ∧
    parseAnnotationM "@".toList
      = { name := [], params := [], rawText := "@".toList } ∧
    parseAnnotationM "@a(k:\"unterminated".toList
      = { name := "a".toList,
          params := [("k".toList, "unterminated".toList)],
          rawText := "@a(k:\"unterminated".toList } := by
  exact ⟨parseAnnotationsM_all_nonempty, rfl, rfl⟩

theorem determineVisibility_ne_protected (name : Str) :
    determineVisibility name ≠ Visibility.vprotected := by
  unfold determineVisibility
  split
  · simp
  · split
    · simp
    · split
      · split <;> simp
      · simp

theorem newTypeInfoFromExpr_vis (pkgPath : Str) (e : GoExpr) :
    ∀ (typeName : Str) (spec : Option TypeSpecM),
      (NewTypeInfoFromExpr pkgPath e typeName spec).all
        (fun ti => ti.visibility != Visibility.vprotected) = true := by
  refine @GoExpr.rec
    (fun e => ∀ (typeName : Str) (spec : Option TypeSpecM),
      (NewTypeInfoFromExpr pkgPath e typeName spec).all
        (fun ti => ti.visibility != Visibility.vprotected) = true)
    (fun _ => True) (fun _ => True)
    ?_ ?_ ?_ ?_ ?_ ?_ ?_ ?_ ?_ ?_ e
  case refine_2 => intro x ih typeName spec; exact ih [] spec
  case refine_7 => trivial
  case refine_8 => intro ns ty rest ihty ihrest; trivial
  case refine_9 => trivial
  case refine_10 => intro y rest ihy ihrest; trivial
  case refine_1 =>
    intro n typeName spec
    have hv := determineVisibility_ne_protected typeName
    simp only [NewTypeInfoFromExpr]
    repeat' split
    all_goals simp_all [baseTypeInfo, Option.all]
  case refine_3 =>
    intro p n typeName spec
    have hv := determineVisibility_ne_protected typeName
    simp only [NewTypeInfoFromExpr]
    repeat' split
    all_goals simp_all [baseTypeInfo, Option.all]
  case refine_4 =>
    intro fs hfs typeName spec
    have hv := determineVisibility_ne_protected typeName
    simp only [NewTypeInfoFromExpr]
    repeat' split
    all_goals simp_all [baseTypeInfo, Option.all]
  case refine_5 =>
    intro b a ihb iha typeName spec
    have hv := determineVisibility_ne_protected typeName
    simp only [NewTypeInfoFromExpr]
    repeat' split
    all_goals simp_all [baseTypeInfo, Option.all]
  case refine_6 =>
    intro b args ihb iha typeName spec
    have hv := determineVisibility_ne_protected typeName
    simp only [NewTypeInfoFromExpr]
    repeat' split
    all_goals simp_all [baseTypeInfo, Option.all]

theorem usageFlagOk_update (x : TypeInfoM) (w : UsageInfoM) :
    usageFlagOk { x with usageInfo := some (UpdateUsageFlags w) } = true := by
  simp [usageFlagOk, UpdateUsageFlags]

theorem listModify_all {P : TypeInfoM → Bool} (l : List TypeInfoM)
    (f : TypeInfoM → TypeInfoM) (hf : ∀ x, P (f x) = true) :
    ∀ i, l.all P = true → (updateArena.listModify l i f).all P = true := by
  induction l with
  | nil => intro i _; rfl
  | cons x xs ih =>
    intro i hl
    rw [List.all_cons, Bool.and_eq_true] at hl
    cases i with
    | zero =>
      simp only [updateArena.listModify, List.all_cons, Bool.and_eq_true]
      exact ⟨hf x, hl.2⟩
    | succ n =>
      simp only [updateArena.listModify, List.all_cons, Bool.and_eq_true]
      exact ⟨hl.1, ih n hl.2⟩

/-- C8: every usage-recording operation recomputes the embedded-only flag,
so flag consistency (`usageFlagOk`: the flag is true iff there is at least
one embedded edge and no field/parameter/return edge) holds at every node
after any of the four edge-recording operations, whenever it held before. -/
theorem c8_embedded_only_flag_recomputed
    (c : Ctx) (ti : Option Nat) (parentIdx : Nat)
    (fname ftype pname rtype rname : Str)
    (h : c.arena.all usageFlagOk = true) :
    (trackFieldUsageF c ti parentIdx fname).arena.all usageFlagOk = true ∧
    (trackEmbeddedUsageF c ti parentIdx).arena.all usageFlagOk = true ∧
    (trackParameterUsageF c ti ftype pname).arena.all usageFlagOk = true ∧
    (trackReturnUsageF c ti rtype rname).arena.all usageFlagOk = true := by
  refine ⟨?_, ?_, ?_, ?_⟩ <;>
    · first
      | unfold trackFieldUsageF
      | unfold trackEmbeddedUsageF
      | unfold trackParameterUsageF
      | unfold trackReturnUsageF
      repeat' split
      all_goals
        first
        | exact h
        | (simp only [updateArena]
           exact listModify_all _ _ (fun x => usageFlagOk_update x _) _ h)

/-- C8 witness. -/
theorem c8_embedded_only_flag_recomputed_witness :
    ((⟨[], []⟩ : Ctx).arena.all usageFlagOk = true) ∧
    (trackFieldUsageF ⟨[], []⟩ none 0 []).arena.all usageFlagOk = true :=
  ⟨rfl, (c8_embedded_only_flag_recomputed ⟨[], []⟩ none 0 [] [] [] [] [] rfl).1⟩

/-- C2 counterexample: for the constant group `A T = 5; B; C` the code
reconstructs the values `5, 1, 2`, not `5, 6, 7`: the explicit literal `5`
contains no auto-increment marker, so it does not become the current
pattern, and the members omitting a value fall back to the bare marker,
which evaluates to the sequence positions 1 and 2. -/
theorem c2_explicit_literal_does_not_seed_increment :
    AddConstBlockF "pkg".toList constBlockA5BC
      = [("pkg.T".toList,
          [{ name := "A".toList, value := .vStr "5".toList, typeRef := "pkg.T".toList },
           { name := "B".toList, value := .vInt 1, typeRef := "pkg.T".toList },
           { name := "C".toList, value := .vInt 2, typeRef := "pkg.T".toList }])] ∧
    (AddConstBlockF "pkg".toList constBlockA5BC).map
        (fun p => p.2.map (fun e => e.value))
      ≠ [[.vStr "5".toList, .vInt 6, .vInt 7]] ∧
    (AddConstBlockF "pkg".toList constBlockA5BC).map
        (fun p => p.2.map (fun e => e.value))
      ≠ [[.vInt 5, .vInt 6, .vInt 7]] := by
  refine ⟨rfl, ?_, ?_⟩ <;> decide

/-- C2 amended: for `A T = 5; B; C` the reconstructed values in declaration
order are `5, 1, 2`; in general a member that omits a value re-evaluates
the current auto-increment pattern at its sequence position, with the bare
marker (which evaluates to the sequence position) as the fallback pattern
when no marker expression has been seen. -/
theorem c2_omitted_value_reevaluates_pattern :
    (AddConstBlockF "pkg".toList constBlockA5BC
      = [("pkg.T".toList,
          [{ name := "A".toList, value := .vStr "5".toList, typeRef := "pkg.T".toList },
           { name := "B".toList, value := .vInt 1, typeRef := "pkg.T".toList },
           { name := "C".toList, value := .vInt 2, typeRef := "pkg.T".toList }])]) ∧
    (∀ (st : ConstSt) (name : Str), st.currentTypeName ≠ [] →
      (addConstName st name none).consts
        = bucketAppend st.consts st.currentTypeName
            { name := name,
              value := evaluateIotaExpression
                (if st.lastIotaExpr ≠ [] then st.lastIotaExpr else "iota".toList)
                st.iotaValue,
              typeRef := st.currentTypeName }) := by
  refine ⟨rfl, ?_⟩
  intro st name hty
  unfold addConstName
  split
  · simp_all
  · by_cases hl : st.lastIotaExpr = [] <;> simp [hl]

/-- C2 amended witness. -/
theorem c2_omitted_value_reevaluates_pattern_witness :
    (⟨"pkg.T".toList, 1, [], []⟩ : ConstSt).currentTypeName ≠ [] ∧
    (addConstName ⟨"pkg.T".toList, 1, [], []⟩ "B".toList none).consts
      = bucketAppend [] "pkg.T".toList
          { name := "B".toList,
            value := evaluateIotaExpression
              (if ([] : Str) ≠ [] then [] else "iota".toList) 1,
            typeRef := "pkg.T".toList } :=
  ⟨by decide,
   (c2_omitted_value_reevaluates_pattern.2 ⟨"pkg.T".toList, 1, [], []⟩
     "B".toList (by decide))⟩

/-- C3: with the structural chain `S → A → B` seeded at `S`, the
depth-bounded referenced-types parse with max depth 1 covers `S` and `A`
but not `B`, and the referenced-mode output (after the unbounded
referenced-map phase and the filter) is `{S, A}`; with max depth 2 it also
includes `B`. -/
theorem c3_referenced_inclusion_bounded_by_max_depth :
    (parseReferencedTypesM worldSAB [structS] 1).parsedTypes
      = ["S".toList, "A".toList] ∧
    ¬ ("B".toList ∈ (parseReferencedTypesM worldSAB [structS] 1).parsedTypes) ∧
    (referencedModeStructsM worldSAB [structS] [funcSeedS] 1).map (fun s => s.name)
      = ["S".toList, "A".toList] ∧
    (referencedModeStructsM worldSAB [structS] [funcSeedS] 2).map (fun s => s.name)
      = ["S".toList, "A".toList, "B".toList] := by
  refine ⟨rfl, ?_, rfl, rfl⟩
  decide

/-- C4 counterexample: usage-edge recording is not idempotent.  Invoking
`trackFieldUsage` twice with the identical reference site (type `pkg.F`
used as field `f` of `pkg.P`) appends the same edge twice, where a single
invocation records it once. -/
theorem c4_edge_recording_not_idempotent :
    ((trackFieldUsageF (trackFieldUsageF usageCtx (some 1) 0 "f".toList)
        (some 1) 0 "f".toList).arena.get? 1).map
      (fun n => n.usageInfo.map (fun u => u.referencedIn))
      = some (some
          [{ refType := "pkg.P".toList, name := "f".toList, kind := .fieldK },
           { refType := "pkg.P".toList, name := "f".toList, kind := .fieldK }]) ∧
    ((trackFieldUsageF usageCtx (some 1) 0 "f".toList).arena.get? 1).map
      (fun n => n.usageInfo.map (fun u => u.referencedIn))
      = some (some
          [{ refType := "pkg.P".toList, name := "f".toList, kind := .fieldK }]) := by
  constructor <;> rfl

/-- C4 amended: registering the same declaration a second time (same
canonical name) returns the identical already-cached node and leaves the
whole registry state unchanged — in particular re-registration appends no
usage edge at all, duplicate or otherwise.  (The low-level edge-recording
operation itself is not idempotent; see the counterexample.) -/
theorem c4_second_registration_identity (pk : Str) (fuel g : Nat) (c : Ctx)
    (e : GoExpr) (tn : Str) (sp : Option TypeSpecM) (r : Option Nat) (c₁ : Ctx)
    (h : GetOrCreateTypeInfoF pk fuel c e tn sp = some (r, c₁)) :
    GetOrCreateTypeInfoF pk (g + 1) c₁ e tn sp = some (r, c₁) := by
  cases fuel with
  | zero => simp [GetOrCreateTypeInfoF] at h
  | succ f =>
    simp only [GetOrCreateTypeInfoF] at h
    split at h
    · rename_i idx hidx
      cases h
      simp only [GetOrCreateTypeInfoF]
      rw [hidx]
    · rename_i hnone
      split at h
      · rename_i hti
        cases h
        simp only [GetOrCreateTypeInfoF]
        rw [hnone, hti]
      · rename_i ti hti
        have hkey : alLookup c₁.cache (GetCanonicalNameFromExpr pk e tn)
            = some c.arena.length := by
          split at h
          · split at h
            · rename_i c'' hpf
              cases h
              have hmono := ((engineEvo f).2.1) pk _ _ _ hpf
              exact hmono.1 _ _ (alLookup_mapInsert_self _ _ _ hnone)
            · exact absurd h (by simp)
          · cases h
            exact alLookup_mapInsert_self _ _ _ hnone
        have hr : r = some c.arena.length := by
          split at h
          · split at h
            · cases h; rfl
            · exact absurd h (by simp)
          · cases h; rfl
        subst hr
        simp only [GetOrCreateTypeInfoF]
        rw [hkey]

/-- C4 witness. -/
theorem c4_second_registration_identity_witness :
    GetOrCreateTypeInfoF "pkg".toList 1 ctxAfterA (.ident "A".toList) [] none
      = some (some 0, ctxAfterA) :=
  c4_second_registration_identity "pkg".toList 2 0 ⟨[], []⟩ (.ident "A".toList)
    [] none (some 0) ctxAfterA rfl

/-- C10: the visibility derivation returns only public or private: the
protected member of the `Visibility` enumeration is never produced for any
element name, and no registry node is ever created with it. -/
theorem c10_protected_visibility_never_derived :
    (∀ name : Str, determineVisibility name ≠ Visibility.vprotected) ∧
    (∀ (pkgPath : Str) (e : GoExpr) (typeName : Str) (spec : Option TypeSpecM),
        (NewTypeInfoFromExpr pkgPath e typeName spec).all
          (fun ti => ti.visibility != Visibility.vprotected) = true) :=
  ⟨determineVisibility_ne_protected,
   fun pkgPath e typeName spec => newTypeInfoFromExpr_vis pkgPath e typeName spec⟩


/-! ## Fuel sufficiency and the self-reference and instantiation flows -/

set_option maxHeartbeats 2000000

theorem exprFuel_pos (e : GoExpr) : 1 ≤ exprFuel e := by
  refine @GoExpr.rec (fun e => 1 ≤ exprFuel e) (fun _ => True) (fun _ => True)
    ?_ ?_ ?_ ?_ ?_ ?_ ?_ ?_ ?_ ?_ e <;> intros <;>
    first
    | trivial
    | simp_all [exprFuel]

theorem fieldsFuel_pos (fs : FieldList) : 1 ≤ fieldsFuel fs := by
  cases fs <;> simp [fieldsFuel]

set_option linter.unnecessarySeqFocus false in
theorem newTypeInfo_structS (pk : Str) (e : GoExpr) :
    ∀ tn sp ti, NewTypeInfoFromExpr pk e tn sp = some ti →
      ti.structTypeS = none ∨ (ti.structTypeS = some none ∧ 2 ≤ exprFuel e) ∨
      (∃ fs, ti.structTypeS = some (some fs) ∧ exprFuel e = fieldsFuel fs + 2) := by
  refine @GoExpr.rec
    (fun e => ∀ tn sp ti, NewTypeInfoFromExpr pk e tn sp = some ti →
      ti.structTypeS = none ∨ (ti.structTypeS = some none ∧ 2 ≤ exprFuel e) ∨
      (∃ fs, ti.structTypeS = some (some fs) ∧ exprFuel e = fieldsFuel fs + 2))
    (fun _ => True) (fun _ => True) ?_ ?_ ?_ ?_ ?_ ?_ ?_ ?_ ?_ ?_ e
  case refine_2 =>
    intro x ih tn sp ti h
    simp only [NewTypeInfoFromExpr] at h
    simpa [exprFuel] using ih [] sp ti h
  case refine_7 => trivial
  case refine_8 => intro ns ty rest ihty ihrest; trivial
  case refine_9 => trivial
  case refine_10 => intro y rest ihy ihrest; trivial
  case refine_1 =>
    intro n tn sp ti h
    simp only [NewTypeInfoFromExpr] at h
    repeat' split at h
    all_goals (cases h <;> simp [exprFuel, baseTypeInfo])
  case refine_3 =>
    intro p n tn sp ti h
    simp only [NewTypeInfoFromExpr] at h
    repeat' split at h
    all_goals (cases h <;> simp [exprFuel, baseTypeInfo])
  case refine_4 =>
    intro fs hfs tn sp ti h
    simp only [NewTypeInfoFromExpr] at h
    repeat' split at h
    all_goals (cases h <;> simp [exprFuel, baseTypeInfo])
  case refine_5 =>
    intro b a ihb iha tn sp ti h
    simp only [NewTypeInfoFromExpr] at h
    repeat' split at h
    all_goals (cases h <;> simp [exprFuel, baseTypeInfo])
  case refine_6 =>
    intro b args ihb iha tn sp ti h
    simp only [NewTypeInfoFromExpr] at h
    repeat' split at h
    all_goals (cases h <;> simp [exprFuel, baseTypeInfo])

theorem parseTypedElementF_isSome (pk : Str) (f : Nat) (c : Ctx) (ty0 : GoExpr) (nm : Str)
    (h : ∀ tn, (GetOrCreateTypeInfoF pk f c (stripStar ty0) tn none).isSome = true) :
    (parseTypedElementF pk (f + 1) c ty0 nm).isSome = true := by
  cases ty0 with
  | star x =>
    cases x <;>
      first
      | (simp only [parseTypedElementF, stripStar] at h ⊢
         rcases Option.isSome_iff_exists.mp
           (h (if (nm == []) = true then "AnonymousType".toList else nm ++ "Type".toList))
           with ⟨⟨tiIdx, c₁⟩, hp⟩
         rw [hp]
         simp)
      | (simp only [parseTypedElementF, stripStar] at h ⊢
         rcases Option.isSome_iff_exists.mp (h []) with ⟨⟨tiIdx, c₁⟩, hp⟩
         rw [hp]
         simp)
  | _ =>
    first
    | (simp only [parseTypedElementF, stripStar] at h ⊢
       rcases Option.isSome_iff_exists.mp
         (h (if (nm == []) = true then "AnonymousType".toList else nm ++ "Type".toList))
         with ⟨⟨tiIdx, c₁⟩, hp⟩
       rw [hp]
       simp)
    | (simp only [parseTypedElementF, stripStar] at h ⊢
       rcases Option.isSome_iff_exists.mp (h []) with ⟨⟨tiIdx, c₁⟩, hp⟩
       rw [hp]
       simp)

theorem exprFuel_stripStar (ty : GoExpr) : exprFuel (stripStar ty) = exprFuel ty := by
  cases ty <;> rfl

theorem engineExists : ∀ fuel : Nat,
    (∀ pk c e tn sp, exprFuel e ≤ fuel →
        (GetOrCreateTypeInfoF pk fuel c e tn sp).isSome = true) ∧
    (∀ pk c idx fs, fieldsFuel fs ≤ fuel →
        (parseFieldListF pk fuel c idx fs).isSome = true) ∧
    (∀ pk c ns ty, exprFuel ty + 2 ≤ fuel →
        (NewFieldInfoFromAstF pk fuel c ns ty).isSome = true) ∧
    (∀ pk c ty nm, exprFuel ty + 1 ≤ fuel →
        (parseTypedElementF pk fuel c ty nm).isSome = true) := by
  intro fuel
  induction fuel using Nat.strong_induction_on with
  | _ fuel ih =>
    have hG : ∀ pk c e tn sp, exprFuel e ≤ fuel →
        (GetOrCreateTypeInfoF pk fuel c e tn sp).isSome = true := by
      intro pk c e tn sp hfuel
      have h1 := exprFuel_pos e
      cases fuel with
      | zero => omega
      | succ f =>
        simp only [GetOrCreateTypeInfoF]
        split
        · simp
        · split
          · simp
          · rename_i hnone ti hti
            split
            · rename_i htrig
              -- trigger: node kind is struct and structTypeS isSome
              rcases newTypeInfo_structS pk e tn sp ti hti with hs | ⟨hs, hge⟩ | ⟨fs, hs, hfs⟩
              · -- structTypeS none contradicts trigger
                rw [Bool.and_eq_true] at htrig
                rw [hs] at htrig
                simp at htrig
              · -- placeholder: parseFieldsF is a no-op but needs one fuel
                rw [Bool.and_eq_true] at htrig
                cases f with
                | zero => omega
                | succ f₂ =>
                  simp [parseFieldsF, get?_concat_self, htrig.1, hs]
              · -- real field list
                rw [Bool.and_eq_true] at htrig
                cases f with
                | zero => omega
                | succ f₂ =>
                  have hrec := (ih f₂ (by omega)).2.1 pk
                    ⟨c.arena ++ [{ ti with cannonicalName := GetCanonicalNameFromExpr pk e tn, structTypeS := some (some fs) }],
                      mapInsert c.cache (GetCanonicalNameFromExpr pk e tn) c.arena.length⟩
                    c.arena.length fs (by omega)
                  rw [Option.isSome_iff_exists] at hrec
                  obtain ⟨c₂, hflr⟩ := hrec
                  simp [parseFieldsF, get?_concat_self, htrig.1, hs, hflr]
            · simp
    have hFL : ∀ pk c idx fs, fieldsFuel fs ≤ fuel →
        (parseFieldListF pk fuel c idx fs).isSome = true := by
      intro pk c idx fs hfuel
      have h1 := fieldsFuel_pos fs
      cases fuel with
      | zero => omega
      | succ f =>
        cases fs with
        | nil => simp [parseFieldListF]
        | cons ns ty rest =>
          simp only [parseFieldListF]
          have hnf := (ih f (by omega)).2.2.1 pk c ns ty
            (by simp [fieldsFuel] at hfuel; omega)
          cases hnfr : NewFieldInfoFromAstF pk f c ns ty with
          | none => rw [hnfr] at hnf; simp at hnf
          | some p =>
            obtain ⟨fi, c₁⟩ := p
            exact (ih f (by omega)).2.1 pk _ idx rest
              (by simp [fieldsFuel] at hfuel; omega)
    have hNF : ∀ pk c ns ty, exprFuel ty + 2 ≤ fuel →
        (NewFieldInfoFromAstF pk fuel c ns ty).isSome = true := by
      intro pk c ns ty hfuel
      cases fuel with
      | zero => omega
      | succ f =>
        simp only [NewFieldInfoFromAstF]
        have hte := (ih f (by omega)).2.2.2 pk c ty [] (by omega)
        cases hter : parseTypedElementF pk f c ty [] with
        | none => rw [hter] at hte; simp at hte
        | some p =>
          obtain ⟨te, c₁⟩ := p
          simp
    have hTE : ∀ pk c ty nm, exprFuel ty + 1 ≤ fuel →
        (parseTypedElementF pk fuel c ty nm).isSome = true := by
      intro pk c ty nm hfuel
      have h1 := exprFuel_pos ty
      cases fuel with
      | zero => omega
      | succ f =>
        refine parseTypedElementF_isSome pk f c ty nm ?_
        intro tn
        refine (ih f (by omega)).1 pk c (stripStar ty) tn none ?_
        have hstrip := exprFuel_stripStar ty
        omega
    exact ⟨hG, hFL, hNF, hTE⟩

theorem updateArena_cache (c : Ctx) (i : Nat) (f : TypeInfoM → TypeInfoM) :
    (updateArena c i f).cache = c.cache := rfl

theorem alLookup_concat_none {α : Type} (m : List (Str × α)) (k k' : Str) (v : α)
    (h : alLookup m k' = none) (hne : (k == k') = false) :
    alLookup (m ++ [(k, v)]) k' = none := by
  induction m with
  | nil =>
    rw [List.nil_append, alLookup_cons]
    simp only [hne, Bool.false_eq_true, if_false]
    rfl
  | cons p rest ih =>
    rw [alLookup_cons] at h
    rw [List.cons_append, alLookup_cons]
    cases hp : (p.1 == k')
    · rw [hp] at h
      simp only [Bool.false_eq_true, if_false] at h ⊢
      exact ih h
    · rw [hp] at h
      simp at h

theorem alLookup_mapInsert_none {α : Type} (m : List (Str × α)) (k k' : Str) (v : α)
    (hnone : alLookup m k = none) (h : alLookup m k' = none) (hne : (k == k') = false) :
    alLookup (mapInsert m k v) k' = none := by
  rw [mapInsert_of_none m k v hnone]
  exact alLookup_concat_none m k k' v h hne

theorem parseFieldsF_nonstructS (pk : Str) (f : Nat) (c : Ctx) (idx : Nat)
    (n : TypeInfoM) (hn : c.arena.get? idx = some n)
    (hss : n.structTypeS = some none) :
    parseFieldsF pk (f + 1) c idx = some c := by
  simp only [parseFieldsF, hn]
  cases hk : (n.kind == TypeKind.structK) <;> simp [hss, hk]

theorem selfFieldNF (pk S fname : Str) (f : Nat) (c : Ctx) (idx : Nat) (n : TypeInfoM)
    (hf : 3 ≤ f)
    (hS : IsBasicType S = false)
    (hc : alLookup c.cache (pk ++ '.' :: S) = some idx)
    (hn : c.arena.get? idx = some n) :
    NewFieldInfoFromAstF pk f c [fname] (GoExpr.ident S) =
      some ({ name := fname, isPointer := false, typeRef := n.cannonicalName,
              typeInfo := some idx, isEmbedded := false,
              visibility := determineVisibility fname }, c) := by
  obtain ⟨d, rfl⟩ : ∃ d, f = d + 1 + 1 + 1 := ⟨f - 3, by omega⟩
  have hn2 : c.arena[idx]? = some n := by
    rw [← List.get?_eq_getElem?]
    exact hn
  simp [NewFieldInfoFromAstF, parseTypedElementF, GetOrCreateTypeInfoF,
        GetCanonicalNameFromExpr, finishTypedElement, hS, hc, hn2]

theorem c1FieldLoop (pk S fname : Str) (hS : IsBasicType S = false) :
    ∀ (fuel : Nat) (pre post : FieldList) (c : Ctx) (idx : Nat) (n : TypeInfoM),
      fieldsFuel (flApp pre (.cons [fname] (.ident S) post)) ≤ fuel →
      alLookup c.cache (pk ++ '.' :: S) = some idx →
      c.arena.get? idx = some n →
      ∃ c' n' entries,
        parseFieldListF pk fuel c idx (flApp pre (.cons [fname] (.ident S) post)) = some c' ∧
        c'.arena.get? idx = some n' ∧
        n'.fields = n.fields ++ entries ∧
        entries.length = flLength pre + (flLength post + 1) ∧
        entries.get? (flLength pre) =
          some { name := fname, isPointer := false, typeRef := n.cannonicalName,
                 typeInfo := some idx, isEmbedded := false,
                 visibility := determineVisibility fname } := by
  intro fuel
  induction fuel with
  | zero =>
    intro pre post c idx n hfuel hc hn
    have := fieldsFuel_pos (flApp pre (.cons [fname] (.ident S) post))
    omega
  | succ f ih =>
    intro pre post c idx n hfuel hc hn
    cases pre with
    | nil =>
      simp only [flApp] at hfuel ⊢
      have hb : 3 ≤ f ∧ fieldsFuel post ≤ f := by
        simp only [fieldsFuel, exprFuel] at hfuel
        omega
      have hNF := selfFieldNF pk S fname f c idx n (by omega) hS hc hn
      obtain ⟨m, hm, hmu⟩ := (trackFieldUsageF_evo c (some idx) idx fname).2 idx n hn
      have hmfields : m.fields = n.fields := by rw [hmu]
      have hget3 := updateArena_get_self (trackFieldUsageF c (some idx) idx fname) idx
        (fun ti => { ti with fields := ti.fields ++
          [{ name := fname, isPointer := false, typeRef := n.cannonicalName,
             typeInfo := some idx, isEmbedded := false,
             visibility := determineVisibility fname }] }) m hm
      have hEx := (engineExists f).2.1 pk
        (updateArena (trackFieldUsageF c (some idx) idx fname) idx
          (fun ti => { ti with fields := ti.fields ++
            [{ name := fname, isPointer := false, typeRef := n.cannonicalName,
               typeInfo := some idx, isEmbedded := false,
               visibility := determineVisibility fname }] }))
        idx post (by omega)
      rw [Option.isSome_iff_exists] at hEx
      obtain ⟨c', heq⟩ := hEx
      have hevo := ((engineEvo f).2.2.1 pk _ idx post c' heq).2
      obtain ⟨n', entriesP, hn', hlen, hrec⟩ := hevo.2.2 _ hget3
      have hnf' : n'.fields = n.fields ++
          ({ name := fname, isPointer := false, typeRef := n.cannonicalName,
             typeInfo := some idx, isEmbedded := false,
             visibility := determineVisibility fname } :: entriesP) := by
        rw [hrec]
        show ({ m with fields := m.fields ++ _ }).fields ++ entriesP = _
        rw [hmfields]
        simp
      refine ⟨c', n',
        { name := fname, isPointer := false, typeRef := n.cannonicalName,
          typeInfo := some idx, isEmbedded := false,
          visibility := determineVisibility fname } :: entriesP, ?_, hn', hnf', ?_, ?_⟩
      · simp only [parseFieldListF, hNF]
        exact heq
      · simp [hlen, flLength]
      · simp [flLength]
    | cons ns ty pre =>
      simp only [flApp] at hfuel ⊢
      have hb : exprFuel ty + 2 ≤ f ∧
          fieldsFuel (flApp pre (FieldList.cons [fname] (GoExpr.ident S) post)) ≤ f := by
        simp only [fieldsFuel] at hfuel
        omega
      have hNFs := (engineExists f).2.2.1 pk c ns ty (by omega)
      rw [Option.isSome_iff_exists] at hNFs
      obtain ⟨⟨fi0, c1⟩, hNF⟩ := hNFs
      have hevoNF := (engineEvo f).2.2.2.1 pk c ns ty fi0 c1 hNF
      obtain ⟨m1, hm1, hmu1⟩ := hevoNF.2.2 idx n hn
      have hm1fields : m1.fields = n.fields := by rw [hmu1]
      have hm1can : m1.cannonicalName = n.cannonicalName := by rw [hmu1]
      have htrC : (if fi0.typeInfo.isSome = true then
            (if fi0.isEmbedded = true then trackEmbeddedUsageF c1 fi0.typeInfo idx
             else trackFieldUsageF c1 fi0.typeInfo idx fi0.name)
          else c1).cache = c1.cache := by
        split
        · split
          · exact trackEmbeddedUsageF_cache c1 fi0.typeInfo idx
          · exact trackFieldUsageF_cache c1 fi0.typeInfo idx fi0.name
        · rfl
      have htrE : usageOnlyEvo c1 (if fi0.typeInfo.isSome = true then
            (if fi0.isEmbedded = true then trackEmbeddedUsageF c1 fi0.typeInfo idx
             else trackFieldUsageF c1 fi0.typeInfo idx fi0.name)
          else c1) := by
        split
        · split
          · exact trackEmbeddedUsageF_evo c1 fi0.typeInfo idx
          · exact trackFieldUsageF_evo c1 fi0.typeInfo idx fi0.name
        · exact usageOnlyEvo_refl c1
      obtain ⟨m2, hm2, hmu2⟩ := htrE.2 idx m1 hm1
      have hm2fields : m2.fields = n.fields := by rw [hmu2, hm1fields]
      have hm2can : m2.cannonicalName = n.cannonicalName := by rw [hmu2, hm1can]
      have hget3 := updateArena_get_self
        ((if fi0.typeInfo.isSome = true then
            (if fi0.isEmbedded = true then trackEmbeddedUsageF c1 fi0.typeInfo idx
             else trackFieldUsageF c1 fi0.typeInfo idx fi0.name)
          else c1)) idx (fun ti => { ti with fields := ti.fields ++ [fi0] }) m2 hm2
      have hcache3 : alLookup (updateArena
          (if fi0.typeInfo.isSome = true then
            (if fi0.isEmbedded = true then trackEmbeddedUsageF c1 fi0.typeInfo idx
             else trackFieldUsageF c1 fi0.typeInfo idx fi0.name)
          else c1) idx (fun ti => { ti with fields := ti.fields ++ [fi0] })).cache
          (pk ++ '.' :: S) = some idx := by
        rw [updateArena_cache, htrC]
        exact hevoNF.1 _ _ hc
      obtain ⟨c', n', entries', heq, hn', hnf', hlen', hsel'⟩ :=
        ih pre post (updateArena
          (if fi0.typeInfo.isSome = true then
            (if fi0.isEmbedded = true then trackEmbeddedUsageF c1 fi0.typeInfo idx
             else trackFieldUsageF c1 fi0.typeInfo idx fi0.name)
          else c1) idx (fun ti => { ti with fields := ti.fields ++ [fi0] }))
          idx ({ m2 with fields := m2.fields ++ [fi0] }) (by omega) hcache3 hget3
      refine ⟨c', n', fi0 :: entries', ?_, hn', ?_, ?_, ?_⟩
      · simp only [parseFieldListF, hNF]
        exact heq
      · rw [hnf']
        show m2.fields ++ [fi0] ++ entries' = _
        rw [hm2fields]
        simp
      · simp only [List.length_cons, hlen', flLength]
        omega
      · show (fi0 :: entries').get? (flLength pre + 1) = _
        rw [List.get?_cons_succ, hsel']
        show some _ = some _
        rw [show ({ m2 with fields := m2.fields ++ [fi0] } : TypeInfoM).cannonicalName = m2.cannonicalName from rfl, hm2can]

/-- C1: a struct declaration with a self-typed field registers without
unbounded recursion (linear fuel suffices) and the self-typed field resolves
to the declaring node itself. -/
theorem c1_self_referencing_struct_resolves_to_own_node
    (pk S fname : Str) (pre post : FieldList) (fuel : Nat) (c : Ctx)
    (hS : IsBasicType S = false) (hSne : S ≠ [])
    (hfuel : fieldsFuel (flApp pre (.cons [fname] (.ident S) post)) + 1 ≤ fuel)
    (hfresh : alLookup c.cache (pk ++ '.' :: S) = none) :
    ∃ c' n',
      AddTypeSpecF pk fuel c
        { name := S, ty := .structLit (flApp pre (.cons [fname] (.ident S) post)),
          isAliasDecl := false, typeParams := [] } = some c' ∧
      c'.arena.get? c.arena.length = some n' ∧
      alLookup c'.cache (pk ++ '.' :: S) = some c.arena.length ∧
      n'.cannonicalName = pk ++ '.' :: S ∧
      n'.fields.length = flLength pre + (flLength post + 1) ∧
      n'.fields.get? (flLength pre) =
        some { name := fname, isPointer := false, typeRef := pk ++ '.' :: S,
               typeInfo := some c.arena.length, isEmbedded := false,
               visibility := determineVisibility fname } := by
  obtain ⟨f, rfl⟩ : ∃ f, fuel = f + 1 := ⟨fuel - 1, by omega⟩
  have hkey : (baseTypeInfo pk S (some
      { name := S, ty := .structLit (flApp pre (.cons [fname] (.ident S) post)), isAliasDecl := false, typeParams := [] })).cannonicalName = pk ++ '.' :: S := by
    simp [baseTypeInfo, hS, hSne]
  have hNTI : NewTypeInfoFromExpr pk
      (.structLit (flApp pre (.cons [fname] (.ident S) post))) S
      (some { name := S, ty := .structLit (flApp pre (.cons [fname] (.ident S) post)),
              isAliasDecl := false, typeParams := [] }) =
      some { baseTypeInfo pk S (some
          { name := S, ty := .structLit (flApp pre (.cons [fname] (.ident S) post)),
            isAliasDecl := false, typeParams := [] }) with
          kind := TypeKind.structK
          structTypeS := some (some (flApp pre (.cons [fname] (.ident S) post))) } := by
    simp [NewTypeInfoFromExpr]
  simp only [AddTypeSpecF, hNTI]
  have hA : (baseTypeInfo pk S (some { name := S, ty := .structLit (flApp pre (.cons [fname] (.ident S) post)), isAliasDecl := false, typeParams := [] })).isAlias = false := rfl
  have hGI : (baseTypeInfo pk S (some { name := S, ty := .structLit (flApp pre (.cons [fname] (.ident S) post)), isAliasDecl := false, typeParams := [] })).isGenericInstantiation = false := rfl
  simp only [parseAliasTargetF, get?_concat_self, hA, Bool.false_and, Bool.false_eq_true,
    if_false]
  simp only [parseGenericInstantiationF, get?_concat_self, hGI, Bool.not_false, Bool.true_or,
    if_true]
  simp only [parseFieldsF, get?_concat_self, beq_self_eq_true, if_true]
  obtain ⟨cL, nL, entries, heqL, hnL, hfieldsL, hlenL, hselL⟩ :=
    c1FieldLoop pk S fname hS f pre post
      { arena := c.arena ++ [{ baseTypeInfo pk S (some { name := S, ty := .structLit (flApp pre (.cons [fname] (.ident S) post)), isAliasDecl := false, typeParams := [] }) with
        kind := TypeKind.structK
        structTypeS := some (some (flApp pre (.cons [fname] (.ident S) post))) }],
        cache := mapInsert c.cache
          (baseTypeInfo pk S (some { name := S, ty := .structLit (flApp pre (.cons [fname] (.ident S) post)), isAliasDecl := false, typeParams := [] })).cannonicalName c.arena.length }
      c.arena.length
      ({ baseTypeInfo pk S (some { name := S, ty := .structLit (flApp pre (.cons [fname] (.ident S) post)), isAliasDecl := false, typeParams := [] }) with
        kind := TypeKind.structK
        structTypeS := some (some (flApp pre (.cons [fname] (.ident S) post))) })
      (by omega)
      (by rw [hkey]
          exact alLookup_mapInsert_self _ _ _ hfresh)
      (get?_concat_self _ _)
  have hEvoL := (engineEvo f).2.2.1 pk _ c.arena.length
    (flApp pre (.cons [fname] (.ident S) post)) cL heqL
  have hcacheL : alLookup cL.cache (pk ++ '.' :: S) = some c.arena.length := by
    refine hEvoL.1 _ _ ?_
    rw [hkey]
    exact alLookup_mapInsert_self _ _ _ hfresh
  obtain ⟨n2, entries2, hn2, hlen2, hrec2⟩ := hEvoL.2.2.2 _ (get?_concat_self _ _)
  have hn2eq : n2 = nL := by
    have h := hn2.symm.trans hnL
    exact Option.some.inj h
  rw [hn2eq] at hrec2
  have hcanL : nL.cannonicalName = pk ++ '.' :: S := by
    rw [hrec2]
    exact hkey
  refine ⟨updateArena cL c.arena.length (fun ti => { ti with structTypeS := none }),
    { nL with structTypeS := none }, ?_, ?_, ?_, ?_, ?_, ?_⟩
  · simp only [hA, hGI] at heqL
    rw [heqL]
  · exact updateArena_get_self cL c.arena.length _ nL hnL
  · rw [updateArena_cache]
    exact hcacheL
  · show nL.cannonicalName = _
    exact hcanL
  · show nL.fields.length = _
    rw [hfieldsL]
    show entries.length = _
    exact hlenL
  · show nL.fields.get? (flLength pre) = _
    rw [hfieldsL]
    show entries.get? (flLength pre) = _
    rw [hselL, show ({ baseTypeInfo pk S (some { name := S, ty := .structLit (flApp pre (.cons [fname] (.ident S) post)), isAliasDecl := false, typeParams := [] }) with
        kind := TypeKind.structK
        structTypeS := some (some (flApp pre (.cons [fname] (.ident S) post))) } : TypeInfoM).cannonicalName = pk ++ '.' :: S from hkey]

theorem c1_self_referencing_struct_resolves_to_own_node_witness :
    IsBasicType "Node".toList = false ∧
    "Node".toList ≠ [] ∧
    fieldsFuel (flApp .nil (.cons ["next".toList] (.ident "Node".toList) .nil)) + 1 ≤ 6 ∧
    alLookup (Ctx.mk [] []).cache ("pkg".toList ++ '.' :: "Node".toList) = none ∧
    (∃ c' n',
      AddTypeSpecF "pkg".toList 6 (Ctx.mk [] [])
        { name := "Node".toList,
          ty := .structLit (flApp .nil (.cons ["next".toList] (.ident "Node".toList) .nil)),
          isAliasDecl := false, typeParams := [] } = some c' ∧
      c'.arena.get? (Ctx.mk [] []).arena.length = some n' ∧
      alLookup c'.cache ("pkg".toList ++ '.' :: "Node".toList) =
        some (Ctx.mk [] []).arena.length ∧
      n'.cannonicalName = "pkg".toList ++ '.' :: "Node".toList ∧
      n'.fields.length = flLength .nil + (flLength .nil + 1) ∧
      n'.fields.get? (flLength .nil) =
        some { name := "next".toList, isPointer := false,
               typeRef := "pkg".toList ++ '.' :: "Node".toList,
               typeInfo := some (Ctx.mk [] []).arena.length, isEmbedded := false,
               visibility := determineVisibility "next".toList }) :=
  ⟨by decide, by decide, by decide, rfl,
   c1_self_referencing_struct_resolves_to_own_node "pkg".toList "Node".toList "next".toList
     .nil .nil 6 (Ctx.mk [] []) (by decide) (by decide) (by decide) rfl⟩

/-- C5: instantiation of a generic base copies kind, fields and methods
verbatim, stores the resolved argument list in order and a back-reference
to the base node. -/
theorem c5_generic_instantiation_copies_base
    (pk I N Ch : Str) (f : Nat) (c : Ctx) (b chIdx : Nat)
    (baseNode chNode : TypeInfoM)
    (hI : IsBasicType I = false) (hIne : I ≠ [])
    (hN : IsBasicType N = false) (hCh : IsBasicType Ch = false)
    (hfreshI : alLookup c.cache (pk ++ '.' :: I) = none)
    (hb : alLookup c.cache (pk ++ '.' :: N) = some b)
    (hbn : c.arena.get? b = some baseNode)
    (hch : alLookup c.cache (pk ++ '.' :: Ch) = some chIdx)
    (hchn : c.arena.get? chIdx = some chNode)
    (hint : alLookup c.cache ("int".toList) = none)
    (hintI : (pk ++ '.' :: I == "int".toList) = false) :
    ∃ c' n',
      AddTypeSpecF pk (f + 1) c { name := I, ty := .indexList (.ident N) (.cons (.ident Ch) (.cons (.ident "int".toList) .nil)), isAliasDecl := false, typeParams := [] } = some c' ∧
      c'.arena.get? c.arena.length = some n' ∧
      n'.kind = baseNode.kind ∧
      n'.fields = baseNode.fields ∧
      n'.methods = baseNode.methods ∧
      n'.typeArguments = [some chIdx, none] ∧
      n'.typeArgumentRefs = [chNode.cannonicalName] ∧
      n'.baseGenericType = some b ∧
      n'.baseGenericTypeRef = baseNode.cannonicalName := by
  have hNTI : NewTypeInfoFromExpr pk
      (.indexList (.ident N) (.cons (.ident Ch) (.cons (.ident "int".toList) .nil))) I
      (some { name := I, ty := .indexList (.ident N) (.cons (.ident Ch) (.cons (.ident "int".toList) .nil)), isAliasDecl := false, typeParams := [] }) =
      some { baseTypeInfo pk I (some { name := I, ty := .indexList (.ident N) (.cons (.ident Ch) (.cons (.ident "int".toList) .nil)), isAliasDecl := false, typeParams := [] }) with
          kind := TypeKind.structK
          isGenericInstantiation := true
          structTypeS := some none } := by
    simp [NewTypeInfoFromExpr]
  simp only [AddTypeSpecF, hNTI, baseTypeInfo, hI, hIne, ne_eq, Bool.false_eq_true,
    not_false_eq_true, and_self, and_true, true_and, if_true, ite_true]
  have hbm : b < c.arena.length := get?_some_lt _ _ _ hbn
  have hchm : chIdx < c.arena.length := get?_some_lt _ _ _ hchn
  have hlookN : alLookup (mapInsert c.cache (pk ++ '.' :: I) c.arena.length)
      (pk ++ '.' :: N) = some b :=
    alLookup_mapInsert_preserve _ _ _ _ _ hfreshI hb
  have hlookCh : alLookup (mapInsert c.cache (pk ++ '.' :: I) c.arena.length)
      (pk ++ '.' :: Ch) = some chIdx :=
    alLookup_mapInsert_preserve _ _ _ _ _ hfreshI hch
  have hlookInt : alLookup (mapInsert c.cache (pk ++ '.' :: I) c.arena.length)
      "int".toList = none :=
    alLookup_mapInsert_none _ _ _ _ hfreshI hint hintI
  have hgetb1 : (({ arena := c.arena ++ [{ kind := TypeKind.structK, visibility := determineVisibility I, cannonicalName := pk ++ '.' :: I, name := I, typeSpec := some { name := I, ty := .indexList (.ident N) (.cons (.ident Ch) (.cons (.ident "int".toList) .nil)), isAliasDecl := false, typeParams := [] }, isGeneric := false, isAlias := false, aliasTarget := none, aliasTargetRef := [], isGenericInstantiation := true, baseGenericType := none, baseGenericTypeRef := [], typeArguments := [], typeArgumentRefs := [], typeParams := [], fields := [], methods := [], usageInfo := some { isOnlyEmbedded := false, embeddedIn := [], referencedIn := [] }, depth := -1, structTypeS := some none }], cache := mapInsert c.cache (pk ++ '.' :: I) c.arena.length } : Ctx).arena).get? b = some baseNode :=
    get?_append_left _ _ _ _ hbn
  simp only [parseAliasTargetF, get?_concat_self, Bool.false_and, Bool.false_eq_true, if_false]
  simp only [parseGenericInstantiationF, get?_concat_self, Bool.not_true, Bool.false_or,
    Bool.or_self, Option.isSome_some, Bool.not_false, Bool.false_eq_true, if_false,
    GetOrCreateTypeInfoF, GetCanonicalNameFromExpr, hN, hCh, hlookN, hlookCh, hlookInt,
    hgetb1, updateArena_cache, ne_eq, not_false_eq_true, ite_true, Bool.false_and,
    not_true, if_false, ite_false]
  have hbint : IsBasicType ("int".toList) = true := rfl
  have hgetCh2 : (updateArena ({ arena := c.arena ++ [{ kind := TypeKind.structK, visibility := determineVisibility I, cannonicalName := pk ++ '.' :: I, name := I, typeSpec := some { name := I, ty := .indexList (.ident N) (.cons (.ident Ch) (.cons (.ident "int".toList) .nil)), isAliasDecl := false, typeParams := [] }, isGeneric := false, isAlias := false, aliasTarget := none, aliasTargetRef := [], isGenericInstantiation := true, baseGenericType := none, baseGenericTypeRef := [], typeArguments := [], typeArgumentRefs := [], typeParams := [], fields := [], methods := [], usageInfo := some { isOnlyEmbedded := false, embeddedIn := [], referencedIn := [] }, depth := -1, structTypeS := some none }], cache := mapInsert c.cache (pk ++ '.' :: I) c.arena.length } : Ctx) c.arena.length
      (fun ti => { ti with baseGenericType := some b, baseGenericTypeRef := baseNode.cannonicalName, typeArgumentRefs := ([] : List Str) })).arena.get? chIdx = some chNode := by
    rw [updateArena_get_other _ _ _ _ (Nat.ne_of_lt hchm)]
    exact get?_append_left _ _ _ _ hchn
  simp only [resolveTypeArgsF, GetOrCreateTypeInfoF, GetCanonicalNameFromExpr, hCh, hbint,
    hlookCh, hlookInt, updateArena_cache, hgetCh2, NewTypeInfoFromExpr, ne_eq,
    not_false_eq_true, ite_true, not_true, if_false, ite_false, Bool.false_eq_true,
    List.append_nil, List.nil_append]
  have hgetI0 : ({ arena := c.arena ++ [{ kind := TypeKind.structK, visibility := determineVisibility I, cannonicalName := pk ++ '.' :: I, name := I, typeSpec := some { name := I, ty := .indexList (.ident N) (.cons (.ident Ch) (.cons (.ident "int".toList) .nil)), isAliasDecl := false, typeParams := [] }, isGeneric := false, isAlias := false, aliasTarget := none, aliasTargetRef := [], isGenericInstantiation := true, baseGenericType := none, baseGenericTypeRef := [], typeArguments := [], typeArgumentRefs := [], typeParams := [], fields := [], methods := [], usageInfo := some { isOnlyEmbedded := false, embeddedIn := [], referencedIn := [] }, depth := -1, structTypeS := some none }], cache := mapInsert c.cache (pk ++ '.' :: I) c.arena.length } : Ctx).arena.get? c.arena.length =
      some ({ kind := TypeKind.structK, visibility := determineVisibility I, cannonicalName := pk ++ '.' :: I, name := I, typeSpec := some { name := I, ty := .indexList (.ident N) (.cons (.ident Ch) (.cons (.ident "int".toList) .nil)), isAliasDecl := false, typeParams := [] }, isGeneric := false, isAlias := false, aliasTarget := none, aliasTargetRef := [], isGenericInstantiation := true, baseGenericType := none, baseGenericTypeRef := [], typeArguments := [], typeArgumentRefs := [], typeParams := [], fields := [], methods := [], usageInfo := some { isOnlyEmbedded := false, embeddedIn := [], referencedIn := [] }, depth := -1, structTypeS := some none }) := get?_concat_self _ _
  have hgetI1 := updateArena_get_self ({ arena := c.arena ++ [{ kind := TypeKind.structK, visibility := determineVisibility I, cannonicalName := pk ++ '.' :: I, name := I, typeSpec := some { name := I, ty := .indexList (.ident N) (.cons (.ident Ch) (.cons (.ident "int".toList) .nil)), isAliasDecl := false, typeParams := [] }, isGeneric := false, isAlias := false, aliasTarget := none, aliasTargetRef := [], isGenericInstantiation := true, baseGenericType := none, baseGenericTypeRef := [], typeArguments := [], typeArgumentRefs := [], typeParams := [], fields := [], methods := [], usageInfo := some { isOnlyEmbedded := false, embeddedIn := [], referencedIn := [] }, depth := -1, structTypeS := some none }], cache := mapInsert c.cache (pk ++ '.' :: I) c.arena.length } : Ctx) c.arena.length
    (fun ti => { ti with baseGenericType := some b, baseGenericTypeRef := baseNode.cannonicalName, typeArgumentRefs := ([] : List Str) }) _ hgetI0
  have hgetI2 := updateArena_get_self
    (updateArena ({ arena := c.arena ++ [{ kind := TypeKind.structK, visibility := determineVisibility I, cannonicalName := pk ++ '.' :: I, name := I, typeSpec := some { name := I, ty := .indexList (.ident N) (.cons (.ident Ch) (.cons (.ident "int".toList) .nil)), isAliasDecl := false, typeParams := [] }, isGeneric := false, isAlias := false, aliasTarget := none, aliasTargetRef := [], isGenericInstantiation := true, baseGenericType := none, baseGenericTypeRef := [], typeArguments := [], typeArgumentRefs := [], typeParams := [], fields := [], methods := [], usageInfo := some { isOnlyEmbedded := false, embeddedIn := [], referencedIn := [] }, depth := -1, structTypeS := some none }], cache := mapInsert c.cache (pk ++ '.' :: I) c.arena.length } : Ctx) c.arena.length (fun ti => { ti with baseGenericType := some b, baseGenericTypeRef := baseNode.cannonicalName, typeArgumentRefs := ([] : List Str) }))
    c.arena.length (fun ti => { ti with typeArguments := [some chIdx, none], typeArgumentRefs := [chNode.cannonicalName] }) _ hgetI1
  have hgetb2 : (updateArena (updateArena ({ arena := c.arena ++ [{ kind := TypeKind.structK, visibility := determineVisibility I, cannonicalName := pk ++ '.' :: I, name := I, typeSpec := some { name := I, ty := .indexList (.ident N) (.cons (.ident Ch) (.cons (.ident "int".toList) .nil)), isAliasDecl := false, typeParams := [] }, isGeneric := false, isAlias := false, aliasTarget := none, aliasTargetRef := [], isGenericInstantiation := true, baseGenericType := none, baseGenericTypeRef := [], typeArguments := [], typeArgumentRefs := [], typeParams := [], fields := [], methods := [], usageInfo := some { isOnlyEmbedded := false, embeddedIn := [], referencedIn := [] }, depth := -1, structTypeS := some none }], cache := mapInsert c.cache (pk ++ '.' :: I) c.arena.length } : Ctx) c.arena.length (fun ti => { ti with baseGenericType := some b, baseGenericTypeRef := baseNode.cannonicalName, typeArgumentRefs := ([] : List Str) })) c.arena.length (fun ti => { ti with typeArguments := [some chIdx, none], typeArgumentRefs := [chNode.cannonicalName] })).arena.get? b = some baseNode := by
    rw [updateArena_get_other _ _ _ _ (Nat.ne_of_lt hbm),
        updateArena_get_other _ _ _ _ (Nat.ne_of_lt hbm)]
    exact get?_append_left _ _ _ _ hbn
  simp only [hgetI2, hgetb2]
  by_cases hfld : baseNode.fields.length > 0 <;> by_cases hmth : baseNode.methods.length > 0 <;>
    simp only [hfld, hmth, ite_true, ite_false, if_true, if_false] <;>
    refine ⟨_, _,
      parseFieldsF_nonstructS pk f _ _ _ (updateArena_get_self _ _ _ _ hgetI2) rfl,
      updateArena_get_self _ _ _ _ hgetI2, ?_, ?_, ?_, ?_, ?_, ?_, ?_⟩ <;>
    first
    | rfl
    | exact (List.length_eq_zero.mp (Nat.eq_zero_of_not_pos hfld)).symm
    | exact (List.length_eq_zero.mp (Nat.eq_zero_of_not_pos hmth)).symm

theorem c5_generic_instantiation_copies_base_witness :
    IsBasicType "Inst".toList = false ∧
    "Inst".toList ≠ [] ∧
    IsBasicType "Node".toList = false ∧
    IsBasicType "Character".toList = false ∧
    alLookup c5CtxS.cache ("pkg".toList ++ '.' :: "Inst".toList) = none ∧
    alLookup c5CtxS.cache ("pkg".toList ++ '.' :: "Node".toList) = some 0 ∧
    c5CtxS.arena.get? 0 = some c5BaseNodeS ∧
    alLookup c5CtxS.cache ("pkg".toList ++ '.' :: "Character".toList) = some 1 ∧
    c5CtxS.arena.get? 1 = some c5ChNodeS ∧
    alLookup c5CtxS.cache ("int".toList) = none ∧
    (("pkg".toList ++ '.' :: "Inst".toList == "int".toList) = false) ∧
    (∃ c' n',
      AddTypeSpecF "pkg".toList (0 + 1) c5CtxS
        { name := "Inst".toList,
          ty := .indexList (.ident "Node".toList)
            (.cons (.ident "Character".toList) (.cons (.ident "int".toList) .nil)),
          isAliasDecl := false, typeParams := [] } = some c' ∧
      c'.arena.get? c5CtxS.arena.length = some n' ∧
      n'.kind = c5BaseNodeS.kind ∧
      n'.fields = c5BaseNodeS.fields ∧
      n'.methods = c5BaseNodeS.methods ∧
      n'.typeArguments = [some 1, none] ∧
      n'.typeArgumentRefs = [c5ChNodeS.cannonicalName] ∧
      n'.baseGenericType = some 0 ∧
      n'.baseGenericTypeRef = c5BaseNodeS.cannonicalName) :=
  ⟨by decide, by decide, by decide, by decide,
   by decide, by decide, rfl, by decide, rfl, by decide, by decide,
   c5_generic_instantiation_copies_base "pkg".toList "Inst".toList "Node".toList
     "Character".toList 0 c5CtxS 0 1 c5BaseNodeS c5ChNodeS
     (by decide) (by decide) (by decide) (by decide)
     (by decide) (by decide) rfl (by decide) rfl (by decide) (by decide)⟩

end Gonnotation
